import Mathlib

/-!
Verification of the version-synchronization core of `v-and-r.py`.

Python strings are modelled as `List Char` (`Str`); file paths likewise.
Machine integers do not occur (Python ints are unbounded, modelled as `Nat`
for the version components, which the source regex guarantees non-negative).
Fallible operations are modelled with `Except Err`.  The embedding restricts
Python's Unicode-aware primitives (`str.strip`, `\d` in regexes) to their
ASCII behaviour, which is the behaviour exercised by every configuration and
example in the repository.
-/

set_option maxRecDepth 4000

abbrev Str := List Char

/-- Models Python `str.strip()`'s whitespace test for the ASCII whitespace
characters (space, tab, newline, carriage return, vertical tab, form feed). -/
def isPySpace (c : Char) : Bool :=
  c == ' ' || c == '\t' || c == '\n' || c == '\r' || c == '\x0b' || c == '\x0c'

/-- Models Python `str.strip()` (no argument): drop leading and trailing
whitespace. -/
def pyStrip (s : Str) : Str :=
  ((s.dropWhile isPySpace).reverse.dropWhile isPySpace).reverse

/-- Value of an ASCII digit character. -/
def digitVal (c : Char) : Nat := c.toNat - 48

/-- Models Python `int(...)` applied to a non-empty string of ASCII digits
(the only use in `parse_version`, where the regex guarantees digit strings). -/
def digitsToNat (s : Str) : Nat := s.foldl (fun a c => 10 * a + digitVal c) 0

/-- Decimal digit character for a value below 10. -/
def digitChar : Nat → Char
  | 0 => '0' | 1 => '1' | 2 => '2' | 3 => '3' | 4 => '4'
  | 5 => '5' | 6 => '6' | 7 => '7' | 8 => '8' | _ => '9'

/-- Fuel-driven decimal printer (most significant digit first). -/
def natReprFuel : Nat → Nat → Str
  | 0, _ => []
  | fuel + 1, n =>
    if n < 10 then [digitChar n]
    else natReprFuel fuel (n / 10) ++ [digitChar (n % 10)]

/-- Models Python's decimal rendering of a non-negative `int`
(as used by the f-strings in `VersionManager` and in indexed error messages). -/
def natRepr (n : Nat) : Str := natReprFuel (n + 1) n

/-- Error taxonomy of the source (`VersionError`, `FileError`, `GitError`,
`VAndRError`), each carrying its message string. -/
inductive Err where
  | versionError (msg : Str)
  | fileError (msg : Str)
  | gitError (msg : Str)
  | vandrError (msg : Str)
deriving Repr, DecidableEq

deriving instance DecidableEq for Except

/-- One `(\d+)` group of the source regex: the maximal (greedy) digit run at
the start of the string, failing when it is empty. -/
def takeDigits1 (s : Str) : Option (Str × Str) :=
  if s.takeWhile Char.isDigit = [] then none
  else some (s.takeWhile Char.isDigit, s.dropWhile Char.isDigit)

/-- One literal `\.` of the source regex. -/
def expectDot (s : Str) : Option Str :=
  if s.head? = some '.' then some s.tail else none

/-- The `(\d+)\.(\d+)\.(\d+)$` part of the source regex, after the optional
`v` has been consumed: three greedy digit runs separated by dots, with the
end of the string required after the third. -/
def parseVerBody (s : Str) : Option (Nat × Nat × Nat) :=
  match takeDigits1 s with
  | none => none
  | some (d1, r1) =>
    match expectDot r1 with
    | none => none
    | some r2 =>
      match takeDigits1 r2 with
      | none => none
      | some (d2, r3) =>
        match expectDot r3 with
        | none => none
        | some r4 =>
          match takeDigits1 r4 with
          | none => none
          | some (d3, r5) =>
            if r5 = [] then some (digitsToNat d1, digitsToNat d2, digitsToNat d3)
            else none

/-- The deterministic matcher for the source regex
`^v?(\d+)\.(\d+)\.(\d+)$` (from `VersionManager.__init__`), applied to an
already-stripped string.  `v?` then `\d+` is deterministic: if the string
starts with `v` the optional `v` must be consumed (a digit must follow), and
each `\d+` is a maximal digit run because the character after it (`.` or
end) is not a digit.  `\d` is modelled as the ASCII digit class. -/
def parseVerCore (cs : Str) : Option (Nat × Nat × Nat) :=
  parseVerBody (if cs.head? = some 'v' then cs.tail else cs)

/-- `VersionManager.parse_version` (src/v-and-r.py:128-149): reject the empty
string, strip surrounding whitespace, match `^v?(\d+)\.(\d+)\.(\d+)$`, and
return the integer components. -/
def parse_version (s : Str) : Except Err (Nat × Nat × Nat) :=
  if s = [] then
    .error (.versionError ("Version string cannot be empty".toList))
  else
    match parseVerCore (pyStrip s) with
    | some t => .ok t
    | none => .error (.versionError
        (("Invalid version format: ".toList) ++ s ++
          (". Expected format: v1.2.3 or 1.2.3".toList)))

example : parse_version ("v1.2.3".toList) = .ok (1, 2, 3) := by decide
example : parse_version ("  10.20.30 ".toList) = .ok (10, 20, 30) := by decide
example : (parse_version ("1.2".toList)).isOk = false := by decide
example : (parse_version ("v1.2.3.4".toList)).isOk = false := by decide
example : (parse_version ("".toList)).isOk = false := by decide

/-- `Version.__lt__` (src/v-and-r.py:58-64): lexicographic comparison of the
`(major, minor, patch)` triple; the `prefix` field does not participate. -/
def vLtB (a b : Nat × Nat × Nat) : Bool :=
  if a.1 ≠ b.1 then decide (a.1 < b.1)
  else if a.2.1 ≠ b.2.1 then decide (a.2.1 < b.2.1)
  else decide (a.2.2 < b.2.2)

/-- `Version.__eq__` (src/v-and-r.py:66-70): equality of the numeric triple,
ignoring the `prefix` field. -/
def vEqB (a b : Nat × Nat × Nat) : Bool :=
  decide (a.1 = b.1) && decide (a.2.1 = b.2.1) && decide (a.2.2 = b.2.2)

/-- A parsed entry of `find_highest_version`'s `valid_versions` list:
the `Version` value (numeric triple plus the preserved prefix string,
src/v-and-r.py:203-205) paired with the original input string. -/
abbrev ValidEntry := ((Nat × Nat × Nat) × Str) × Str

/-- The prefix string computed at src/v-and-r.py:204 and 230-231:
`"v" if version.strip().startswith("v") else ""`. -/
def prefixOf (s : Str) : Str :=
  if (pyStrip s).head? = some 'v' then ['v'] else []

/-- One step of Python `max(valid_versions, key=lambda x: x[0])`
(src/v-and-r.py:214): the running maximum is replaced exactly when the key of
the new element compares greater, where `Version.__gt__` is
`not (self < other or self == other)`. -/
def pyMaxStep (best x : ValidEntry) : ValidEntry :=
  if !(vLtB x.1.1 best.1.1 || vEqB x.1.1 best.1.1) then x else best

/-- The loop body at src/v-and-r.py:200-208: parse an element, recording the
`Version` value (with its preserved prefix) and the original string; a parse
failure is skipped. -/
def parseEntry (v : Str) : Option ValidEntry :=
  match parse_version v with
  | .ok t => some ((t, prefixOf v), v)
  | .error _ => none

/-- `VersionManager.find_highest_version` (src/v-and-r.py:183-215): reject an
empty list; parse every element, skipping failures while recording the
original string and its prefix style; reject the list when nothing parsed;
otherwise return the original string of the (first) maximum element. -/
def find_highest_version (versions : List Str) : Except Err Str :=
  if versions.isEmpty then
    .error (.versionError ("Cannot find highest version from empty list".toList))
  else
    match versions.filterMap parseEntry with
    | [] => .error (.versionError ("No valid versions found in the provided list".toList))
    | h :: t => .ok (t.foldl pyMaxStep h).2

example :
    find_highest_version ["v1.2.3".toList, "invalid".toList, "v1.2.4".toList, "v1.1.0".toList]
      = .ok ("v1.2.4".toList) := by decide
example : (find_highest_version []).isOk = false := by decide
example : (find_highest_version ["bad".toList, "worse".toList]).isOk = false := by decide
example :
    find_highest_version ["1.2.3".toList, "v1.2.3".toList] = .ok ("1.2.3".toList) := by decide

/-- `VersionManager.increment_patch` (src/v-and-r.py:217-232). -/
def increment_patch (s : Str) : Except Err Str :=
  match parse_version s with
  | .error e => .error e
  | .ok (major, minor, patch) =>
    .ok (prefixOf s ++ natRepr major ++ '.' :: natRepr minor ++ '.' :: natRepr (patch + 1))

/-- `VersionManager.increment_minor` (src/v-and-r.py:234-249). -/
def increment_minor (s : Str) : Except Err Str :=
  match parse_version s with
  | .error e => .error e
  | .ok (major, minor, _) =>
    .ok (prefixOf s ++ natRepr major ++ '.' :: natRepr (minor + 1) ++ '.' :: ['0'])

/-- `VersionManager.increment_major` (src/v-and-r.py:251-266). -/
def increment_major (s : Str) : Except Err Str :=
  match parse_version s with
  | .error e => .error e
  | .ok (major, _, _) =>
    .ok (prefixOf s ++ natRepr (major + 1) ++ '.' :: '0' :: '.' :: ['0'])

example : increment_patch ("v1.2.9".toList) = .ok ("v1.2.10".toList) := by decide
example : increment_minor ("v1.9.5".toList) = .ok ("v1.10.0".toList) := by decide
example : increment_major ("v9.5.2".toList) = .ok ("v10.0.0".toList) := by decide
example : increment_patch ("  1.2.3".toList) = .ok ("1.2.4".toList) := by decide

/-- Python `str.replace(old, new)` with an empty `old`: `new` is inserted
before every character and at the end. -/
def pyReplaceEmpty (new : Str) : Str → Str
  | [] => new
  | c :: cs => new ++ c :: pyReplaceEmpty new cs

/-- Fuel-driven scanner for Python `str.replace(old, new)` with non-empty
`old`: scan left to right, replacing each (non-overlapping) occurrence.
Structural in the fuel so that concrete instances reduce in the kernel;
`fuel ≥ length` always suffices. -/
def replGo (old new : Str) : Nat → Str → Str
  | _, [] => []
  | 0, s => s
  | fuel + 1, c :: cs =>
    if old.isPrefixOf (c :: cs) then
      new ++ replGo old new fuel (List.drop old.length (c :: cs))
    else
      c :: replGo old new fuel cs

/-- Python `str.replace(old, new)` (no count argument): every occurrence of
`old` is replaced, scanning left to right without overlap. -/
def pyReplace (s old new : Str) : Str :=
  if old.isEmpty then pyReplaceEmpty new s else replGo old new s.length s

example : pyReplace ("abcabc".toList) ("bc".toList) ("X".toList) = "aXaX".toList := by decide
example : pyReplace ("aaa".toList) ("aa".toList) ("b".toList) = "ba".toList := by decide

/-- Python `needle in haystack` on strings (substring containment). -/
def strContains (hay needle : Str) : Bool :=
  needle.isPrefixOf hay ||
    match hay with
    | [] => false
    | _ :: t => strContains t needle

example : strContains ("version = {version}".toList) ("{version}".toList) = true := by decide
example : strContains ("version = x".toList) ("{version}".toList) = false := by decide

/-- Fuel-driven worker for `globMatch`; every recursive call shrinks
`pattern.length + path.length`, so fuel `pattern.length + path.length + 1`
always suffices (structural in the fuel so the kernel can evaluate it). -/
def globGo : Nat → Str → Str → Bool
  | 0, _, _ => false
  | fuel + 1, p, s =>
    match p, s with
    | [], [] => true
    | [], _ :: _ => false
    | '*' :: ps, [] => globGo fuel ps []
    | '*' :: ps, c :: cs => globGo fuel ps (c :: cs) || globGo fuel ('*' :: ps) cs
    | q :: ps, [] => (q == '*') && globGo fuel ps []
    | q :: ps, c :: cs => (q == '?' || q == c) && globGo fuel ps cs

/-- Shell-glob matching of a pattern against a path, as performed by Python
`fnmatch.fnmatch` on POSIX for patterns built from literal characters, `*`
(any sequence, including `/`) and `?` (any single character) — character
classes do not occur in this repository's configurations. -/
def globMatch (p s : Str) : Bool := globGo (p.length + s.length + 1) p s

example : globMatch ("sample/*.py".toList) ("sample/app.py".toList) = true := by decide
example : globMatch ("sample/*.py".toList) ("sample/app.txt".toList) = false := by decide

/-- Python `str.__lt__`: strict lexicographic comparison by code point. -/
def strLtB : Str → Str → Bool
  | [], [] => false
  | [], _ :: _ => true
  | _ :: _, [] => false
  | a :: as, b :: bs => a < b || (a == b && strLtB as bs)

/-- Insert into a (sorted) list before the first strictly-greater element. -/
def insertSorted (x : Str) : List Str → List Str
  | [] => [x]
  | y :: ys => if strLtB x y then x :: y :: ys else y :: insertSorted x ys

/-- Python `sorted(...)` on a list of strings (ascending, code-point order). -/
def pySortStrs (l : List Str) : List Str := l.foldr insertSorted []

/-- First-occurrence deduplication; composed with `pySortStrs` this models
Python `sorted(list(set(...)))`, whose value depends only on the set of
elements. -/
def dedupStrs : List Str → List Str
  | [] => []
  | x :: xs => if xs.contains x then dedupStrs xs else x :: dedupStrs xs

example : pySortStrs (dedupStrs ["b".toList, "a".toList, "b".toList])
    = ["a".toList, "b".toList] := by decide

/-- Result of a successful Python `pattern.search(content)` as consumed by the
source: the full-match text `group(0)` and the first capture group `group(1)`. -/
structure MatchRes where
  g0 : Str
  g1 : Str
deriving Repr, DecidableEq

/-- A compiled Python regex as consumed by the source: its `search` function
(returning the leftmost match or `None`), its number of capture groups
(`pattern.groups`), and its source text (`pattern.pattern`). -/
structure PyRegex where
  search : Str → Option MatchRes
  groups : Nat
  source : Str

/-- A configuration dictionary entry as passed to `FileManager`: each of the
three keys may be absent (`none` models a missing key). -/
structure ConfigEntry where
  file : Option Str
  pattern : Option PyRegex
  template : Option Str

/-- `FileConfig` (src/v-and-r.py:85-97) after validation. -/
structure FileConfig where
  file_pattern : Str
  regex_pattern : PyRegex
  template : Str

/-- `FileManager._validate_config` (src/v-and-r.py:295-321): required keys
checked in order `file`, `pattern`, `template`; then the `{version}`
placeholder containment and the capture-group count.  The `isinstance`
checks of the source are vacuous here because the fields are typed.
On success the three present fields are returned. -/
def validateConfigEntry (c : ConfigEntry) : Except Err (Str × PyRegex × Str) :=
  match c.file with
  | none => .error (.fileError ("Missing required configuration key: file".toList))
  | some f =>
  match c.pattern with
  | none => .error (.fileError ("Missing required configuration key: pattern".toList))
  | some p =>
  match c.template with
  | none => .error (.fileError ("Missing required configuration key: template".toList))
  | some t =>
  if !(strContains t ("{version}".toList)) then
    .error (.fileError (("Template must contain {version} placeholder: ".toList) ++ t))
  else if p.groups < 1 then
    .error (.fileError (("Regex pattern must have at least one capture group: ".toList) ++ p.source))
  else .ok (f, p, t)

/-- The loop of `FileManager.__init__` (src/v-and-r.py:285-293): validate each
entry in order, building the `FileConfig` list. -/
def initConfigs : List ConfigEntry → Except Err (List FileConfig)
  | [] => .ok []
  | c :: rest =>
    match validateConfigEntry c with
    | .error e => .error e
    | .ok (f, p, t) =>
      match initConfigs rest with
      | .error e => .error e
      | .ok fcs => .ok (⟨f, p, t⟩ :: fcs)

/-- `FileManager.__init__` (src/v-and-r.py:272-293): an empty configuration is
rejected first, then every entry is validated in order.  No file system
access occurs (the definition takes no file-system argument). -/
def fileManagerInit (cfgs : List ConfigEntry) : Except Err (List FileConfig) :=
  if cfgs.isEmpty then
    .error (.fileError ("VERSION_FILES configuration cannot be empty".toList))
  else initConfigs cfgs

/-- The per-entry body of `validate_version_files_config`
(src/v-and-r.py:866-892), with the entry's index woven into every message.
The `isinstance` checks on `pattern`/`template` are vacuous here (typed
fields); the non-empty-string check on `file` is kept. -/
def validateEntryIndexed (i : Nat) (c : ConfigEntry) : Except Err Unit :=
  let pre : Str := ("Configuration entry ".toList) ++ natRepr i
  match c.file with
  | none => .error (.fileError (pre ++ (" missing required key: 'file'".toList)))
  | some f =>
  match c.pattern with
  | none => .error (.fileError (pre ++ (" missing required key: 'pattern'".toList)))
  | some p =>
  match c.template with
  | none => .error (.fileError (pre ++ (" missing required key: 'template'".toList)))
  | some t =>
  if (pyStrip f).isEmpty then
    .error (.fileError (pre ++ (": 'file' must be a non-empty string".toList)))
  else if p.groups < 1 then
    .error (.fileError
      (pre ++ (": regex pattern must have at least one capture group for version".toList)))
  else if !(strContains t ("{version}".toList)) then
    .error (.fileError (pre ++ (": template must contain '{version}' placeholder".toList)))
  else .ok ()

/-- The `enumerate` loop of `validate_version_files_config`
(src/v-and-r.py:866-896), starting at index `i`. -/
def validateAllGo (i : Nat) : List ConfigEntry → Except Err Unit
  | [] => .ok ()
  | c :: rest =>
    match validateEntryIndexed i c with
    | .error e => .error e
    | .ok _ => validateAllGo (i + 1) rest

/-- `validate_version_files_config` (src/v-and-r.py:850-896): reject an empty
configuration, then validate each entry with its index named in any error. -/
def validate_version_files_config (cfgs : List ConfigEntry) : Except Err Unit :=
  if cfgs.isEmpty then
    .error (.fileError ("VERSION_FILES configuration cannot be empty".toList))
  else validateAllGo 0 cfgs

/-- The file-system state seen by `FileManager`: an association list from
path to text content (presence in the list models `os.path.exists`), plus
the sets of paths on which opening for write, or reading/decoding, raises
`IOError`/`UnicodeDecodeError`. -/
structure FS where
  files : List (Str × Str)
  writeFail : List Str
  readFail : List Str
deriving Repr, DecidableEq

/-- Python `open(path).read()` under the model: raises for a path in
`readFail` or an absent path, otherwise yields the content. -/
def fsRead (fs : FS) (path : Str) : Except Err Str :=
  if fs.readFail.contains path then
    .error (.fileError (("Cannot read file ".toList) ++ path))
  else
    match fs.files.lookup path with
    | some content => .ok content
    | none => .error (.fileError (("Cannot read file ".toList) ++ path))

/-- Replace the binding of `path` (first occurrence) or append a new one. -/
def setAssoc (l : List (Str × Str)) (path content : Str) : List (Str × Str) :=
  match l with
  | [] => [(path, content)]
  | (p, c) :: rest =>
    if p = path then (p, content) :: rest else (p, c) :: setAssoc rest path content

/-- Python `open(path, "w").write(content)` under the model: raises for a path
in `writeFail` (leaving the content unchanged), otherwise stores the new
content. -/
def fsWrite (fs : FS) (path content : Str) : Except Err FS :=
  if fs.writeFail.contains path then
    .error (.fileError (("Cannot access file ".toList) ++ path))
  else
    .ok { fs with files := setAssoc fs.files path content }

/-- `FileManager._file_matches_pattern` (src/v-and-r.py:393-410): glob-style
matching when the pattern holds a wildcard, exact equality otherwise. -/
def file_matches_pattern (file_path pat : Str) : Bool :=
  if pat.contains '*' || pat.contains '?' then globMatch pat file_path
  else file_path == pat

/-- `FileManager.expand_file_patterns` (src/v-and-r.py:323-349): wildcard
patterns are expanded against the file system (`glob.glob`, modelled as a
filter over the existing paths), literal patterns are kept when the path
exists; the aggregate is deduplicated and sorted. -/
def expand_file_patterns (cfgs : List FileConfig) (fs : FS) : List Str :=
  let expanded := cfgs.flatMap fun cfg =>
    if cfg.file_pattern.contains '*' || cfg.file_pattern.contains '?' then
      (fs.files.map (·.1)).filter (fun p => globMatch cfg.file_pattern p)
    else if (fs.files.lookup cfg.file_pattern).isSome then [cfg.file_pattern]
    else []
  pySortStrs (dedupStrs expanded)

/-- The config-resolution loop shared by `find_versions_in_files` and
`update_file_version` (src/v-and-r.py:364-370 and 426-431): the first
configuration whose pattern matches the path. -/
def findMatchingConfig (cfgs : List FileConfig) (path : Str) : Option FileConfig :=
  cfgs.find? (fun cfg => file_matches_pattern path cfg.file_pattern)

/-- `FileManager.find_versions_in_files` (src/v-and-r.py:351-391): for every
expanded path with a matching configuration, read the file (read failures
propagate) and record the first capture group of the first match; paths
without a match are omitted. -/
def find_versions_in_files (cfgs : List FileConfig) (fs : FS) :
    Except Err (List (Str × Str)) :=
  go (expand_file_patterns cfgs fs)
where
  go : List Str → Except Err (List (Str × Str))
    | [] => .ok []
    | path :: rest =>
      match findMatchingConfig cfgs path with
      | none => go rest
      | some cfg =>
        match fsRead fs path with
        | .error e => .error e
        | .ok content =>
          match cfg.regex_pattern.search content with
          | some m =>
            match go rest with
            | .error e => .error e
            | .ok acc => .ok ((path, m.g1) :: acc)
          | none => go rest

/-- `str.format(version=new_version)` as applied to a validated template
(src/v-and-r.py:449): every `{version}` field is substituted.  Faithful for
templates whose only replacement fields are `{version}` occurrences, which
validation plus this repository's configurations guarantee. -/
def formatTemplate (template new_version : Str) : Str :=
  pyReplace template ("{version}".toList) new_version

/-- `FileManager.update_file_version` (src/v-and-r.py:412-465): resolve the
first matching configuration (error when none), read the content, search;
on no match return `False` untouched; otherwise replace the occurrences of
the full-match text `group(0)` with the rendered template (Python
`str.replace` replaces every occurrence) and write the result back,
returning `True`. -/
def update_file_version (cfgs : List FileConfig) (fs : FS) (path new_version : Str) :
    Except Err (Bool × FS) :=
  match findMatchingConfig cfgs path with
  | none => .error (.fileError (("No configuration found for file: ".toList) ++ path))
  | some cfg =>
    match fsRead fs path with
    | .error e => .error e
    | .ok content =>
      match cfg.regex_pattern.search content with
      | none => .ok (false, fs)
      | some m =>
        let new_text := formatTemplate cfg.template new_version
        let updated := pyReplace content m.g0 new_text
        match fsWrite fs path updated with
        | .error e => .error e
        | .ok fs' => .ok (true, fs')

/-- `FileManager.update_all_files` (src/v-and-r.py:467-489): update every
expanded path, recording per-path success; a `FileError` raised for one path
is caught, recorded as `False`, and the batch continues.  The return type is
total: no error escapes. -/
def update_all_files (cfgs : List FileConfig) (fs : FS) (new_version : Str) :
    List (Str × Bool) × FS :=
  go (expand_file_patterns cfgs fs) fs
where
  go : List Str → FS → List (Str × Bool) × FS
    | [], fs' => ([], fs')
    | path :: rest, fs' =>
      match update_file_version cfgs fs' path new_version with
      | .ok (b, fs'') =>
        let pr := go rest fs''
        ((path, b) :: pr.1, pr.2)
      | .error _ =>
        let pr := go rest fs'
        ((path, false) :: pr.1, pr.2)

/-- `CLIInterface._rollback_file_changes` (src/v-and-r.py:1302-1330): iterate
over the snapshots in order; a path is written back (to its snapshot) exactly
when `update_results.get(path, False)` is true; a write failure is recorded
and the loop continues.  Returns the final file system, the successfully
rolled-back paths and the paths whose rollback failed (both in iteration
order), mirroring `rollback_count` and `rollback_errors`. -/
def rollback_file_changes (fs : FS) (original_contents : List (Str × Str))
    (update_results : List (Str × Bool)) : FS × List Str × List Str :=
  match original_contents with
  | [] => (fs, [], [])
  | (path, content) :: rest =>
    if (update_results.lookup path).getD false then
      match fsWrite fs path content with
      | .ok fs' =>
        let pr := rollback_file_changes fs' rest update_results
        (pr.1, path :: pr.2.1, pr.2.2)
      | .error _ =>
        let pr := rollback_file_changes fs rest update_results
        (pr.1, pr.2.1, path :: pr.2.2)
    else
      rollback_file_changes fs rest update_results

/-- The increment kind selected by the CLI (src/v-and-r.py:1188-1195). -/
inductive IncType where
  | patch
  | minor
  | major

/-- The dispatch at src/v-and-r.py:1188-1193. -/
def incrementBy : IncType → Str → Except Err Str
  | .patch, s => increment_patch s
  | .minor, s => increment_minor s
  | .major, s => increment_major s

/-- Outcome of the confirmed increment workflow. -/
structure IncrementOutcome where
  newVersion : Str
  results : List (Str × Bool)
  fsOut : FS
  snapshots : List (Str × Str)
deriving Repr, DecidableEq

/-- The snapshot loop at src/v-and-r.py:1218-1223: read every file about to
be touched, skipping (with a warning) files that cannot be read. -/
def snapshotFiles (fs : FS) : List Str → List (Str × Str)
  | [] => []
  | path :: rest =>
    match fsRead fs path with
    | .ok content => (path, content) :: snapshotFiles fs rest
    | .error _ => snapshotFiles fs rest

/-- The update loop at src/v-and-r.py:1229-1245: identical in effect to
`update_all_files.go` but run inline with the single `new_version` string. -/
def incrementUpdateLoop (cfgs : List FileConfig) (new_version : Str) :
    List Str → FS → List (Str × Bool) × FS
  | [], fs => ([], fs)
  | path :: rest, fs =>
    match update_file_version cfgs fs path new_version with
    | .ok (b, fs') =>
      let pr := incrementUpdateLoop cfgs new_version rest fs'
      ((path, b) :: pr.1, pr.2)
    | .error _ =>
      let pr := incrementUpdateLoop cfgs new_version rest fs
      ((path, false) :: pr.1, pr.2)

/-- The computational core of `CLIInterface._execute_increment_command`
(src/v-and-r.py:1166-1245) on the user-confirmed path, up to the optional
interactive rollback: scan the files, find the highest version, compute the
single new version string, snapshot, and apply that one string to every
expanded file.  The `return 1` for an empty scan and the caught
`VersionError`/`FileError` cases (src/v-and-r.py:1170-1175, 1295-1297) are
modelled as errors. -/
def execute_increment (cfgs : List FileConfig) (fs : FS) (ity : IncType) :
    Except Err IncrementOutcome :=
  match find_versions_in_files cfgs fs with
  | .error e => .error e
  | .ok versions_found =>
    if versions_found.isEmpty then
      .error (.vandrError ("No versions found in configured files.".toList))
    else
      match find_highest_version (versions_found.map (·.2)) with
      | .error e => .error e
      | .ok current_version =>
        match incrementBy ity current_version with
        | .error e => .error e
        | .ok new_version =>
          let files_to_update := expand_file_patterns cfgs fs
          let original_contents := snapshotFiles fs files_to_update
          let pr := incrementUpdateLoop cfgs new_version files_to_update fs
          .ok ⟨new_version, pr.1, pr.2, original_contents⟩

/-- A commit record as built by the `GitManager` log parsers
(src/v-and-r.py:619-624). -/
structure CommitRec where
  hash : Str
  message : Str
  author : Str
  date : Str
deriving Repr, DecidableEq

/-- Python `str.split(sep, maxsplit)` worker: at most `m` splits remain;
faithful to Python's semantics for a one-character separator (empty pieces
are kept). -/
def pySplitGo (sep : Char) : Nat → Str → Str → List Str
  | _, acc, [] => [acc.reverse]
  | m, acc, c :: cs =>
    if c == sep && 0 < m then acc.reverse :: pySplitGo sep (m - 1) [] cs
    else pySplitGo sep m (c :: acc) cs

/-- Python `line.split('|', 3)`. -/
def pySplitPipe3 (s : Str) : List Str := pySplitGo '|' 3 [] s

/-- Python `stdout.split('\n')` (unbounded splits; `s.length` splits can never
be exceeded). -/
def pySplitLines (s : Str) : List Str := pySplitGo '\n' s.length [] s

/-- The commit-parsing loop shared verbatim by
`GitManager.get_commits_between_tags` (src/v-and-r.py:614-626),
`GitManager.get_commits_since_tag` (src/v-and-r.py:671-683) and
`GitManager.get_all_commits_since_beginning` (src/v-and-r.py:760-772):
split the log output into lines; for each non-blank line split on `|` with
at most three splits; keep the line exactly when that yields four parts. -/
def parse_commit_lines (stdout : Str) : List CommitRec :=
  (pySplitLines stdout).flatMap fun line =>
    if (pyStrip line).isEmpty then []
    else
      match pySplitPipe3 line with
      | [h, msg, author, date] => [⟨h, msg, author, date⟩]
      | _ => []

example :
    parse_commit_lines ("abc|fix: a|Ann|2024-01-01\n\nshort|line".toList)
      = [⟨"abc".toList, "fix: a".toList, "Ann".toList, "2024-01-01".toList⟩] := by decide
example :
    parse_commit_lines ("abc|fix: a|b|Ann|2024-01-01".toList)
      = [⟨"abc".toList, "fix: a".toList, "b".toList, "Ann|2024-01-01".toList⟩] := by decide

/-- The git queries consumed by `generate_release_info`, abstracted over the
external `git` process: whether the probe `is_git_repository` succeeds, and
the result of each query (`Except` models the `GitError` raises). -/
structure GitModel where
  isRepo : Bool
  currentHash : Except Err Str
  tags : Except Err (List Str)
  commitsSince : Str → Except Err (List CommitRec)
  allCommits : Except Err (List CommitRec)

/-- `ReleaseInfo` (src/v-and-r.py:100-117). -/
structure ReleaseInfo where
  version : Str
  timestamp : Str
  commit_hash : Str
  commits : List CommitRec
  previous_version : Option Str
deriving Repr, DecidableEq

/-- Step 1 of `generate_release_info` (src/v-and-r.py:1344-1352): scan the
files and resolve the highest version, wrapping any `FileError` or
`VersionError` into a `VAndRError`. -/
def currentVersionStep (cfgs : List FileConfig) (fs : FS) : Except Err Str :=
  match find_versions_in_files cfgs fs with
  | .error _ => .error (.vandrError ("Cannot determine current version".toList))
  | .ok found =>
    if found.isEmpty then
      .error (.vandrError ("No versions found in configured files".toList))
    else
      match find_highest_version (found.map (·.2)) with
      | .error _ => .error (.vandrError ("Cannot determine current version".toList))
      | .ok v => .ok v

/-- The tag scan at src/v-and-r.py:1372-1376: first tag not equal to the
current version. -/
def firstOtherTag (current : Str) : List Str → Option Str
  | [] => none
  | t :: rest => if t ≠ current then some t else firstOtherTag current rest

/-- `CLIInterface.generate_release_info` (src/v-and-r.py:1332-1413): resolve
the current version (the only propagated failure), then degrade gracefully
through the git queries.  Outside a repository the defaults
(`commit_hash = "unknown"`, `commits = []`, `previous_version = None`) are
returned with a warning; inside one, failures of individual queries fall
back exactly as the nested `try`/`except` blocks do. -/
def generate_release_info (cfgs : List FileConfig) (fs : FS) (git : GitModel)
    (timestamp : Str) : Except Err ReleaseInfo :=
  match currentVersionStep cfgs fs with
  | .error e => .error e
  | .ok current_version =>
    if git.isRepo then
      match git.currentHash with
      | .error _ =>
        -- outer `except GitError` (src/v-and-r.py:1399-1403)
        .ok ⟨current_version, timestamp, "unknown".toList, [], none⟩
      | .ok commit_hash =>
        match git.tags with
        | .error _ =>
          -- inner `except GitError` (src/v-and-r.py:1388-1397)
          match git.allCommits with
          | .ok commits => .ok ⟨current_version, timestamp, commit_hash, commits, none⟩
          | .error _ => .ok ⟨current_version, timestamp, commit_hash, [], none⟩
        | .ok tags =>
          if tags.isEmpty then
            match git.allCommits with
            | .ok commits => .ok ⟨current_version, timestamp, commit_hash, commits, none⟩
            | .error _ =>
              match git.allCommits with
              | .ok commits => .ok ⟨current_version, timestamp, commit_hash, commits, none⟩
              | .error _ => .ok ⟨current_version, timestamp, commit_hash, [], none⟩
          else
            match firstOtherTag current_version tags with
            | some previous_version =>
              match git.commitsSince previous_version with
              | .ok commits =>
                .ok ⟨current_version, timestamp, commit_hash, commits, some previous_version⟩
              | .error _ =>
                -- the inner handler keeps `previous_version` and falls back
                match git.allCommits with
                | .ok commits =>
                  .ok ⟨current_version, timestamp, commit_hash, commits, some previous_version⟩
                | .error _ =>
                  .ok ⟨current_version, timestamp, commit_hash, [], some previous_version⟩
            | none =>
              match git.allCommits with
              | .ok commits => .ok ⟨current_version, timestamp, commit_hash, commits, none⟩
              | .error _ =>
                match git.allCommits with
                | .ok commits => .ok ⟨current_version, timestamp, commit_hash, commits, none⟩
                | .error _ => .ok ⟨current_version, timestamp, commit_hash, [], none⟩
    else
      .ok ⟨current_version, timestamp, "unknown".toList, [], none⟩

/-- Anchored matcher for the sub-expression `(v\d+\.\d+\.\d+)` at the start of
a string: the literal `v` followed by three maximal digit runs separated by
dots.  Returns the matched text and the remainder. -/
def takeVer (s : Str) : Option (Str × Str) :=
  match s with
  | 'v' :: rest =>
    let d1 := rest.takeWhile Char.isDigit
    let r1 := rest.dropWhile Char.isDigit
    if d1 = [] then none else
    match r1 with
    | '.' :: r2 =>
      let d2 := r2.takeWhile Char.isDigit
      let r3 := r2.dropWhile Char.isDigit
      if d2 = [] then none else
      match r3 with
      | '.' :: r4 =>
        let d3 := r4.takeWhile Char.isDigit
        let r5 := r4.dropWhile Char.isDigit
        if d3 = [] then none
        else some ('v' :: d1 ++ '.' :: d2 ++ '.' :: d3, r5)
      | _ => none
    | _ => none
  | _ => none

/-- Anchored matcher for `version = "(v\d+\.\d+\.\d+)"` at the start of a
string (the sample-file rule of `VERSION_FILES`, src/v-and-r.py:798-802). -/
def matchQuotedAt (s : Str) : Option MatchRes :=
  let lit := "version = \"".toList
  if lit.isPrefixOf s then
    match takeVer (s.drop lit.length) with
    | some (ver, rest) =>
      match rest with
      | '"' :: _ => some ⟨lit ++ ver ++ ['"'], ver⟩
      | _ => none
    | none => none
  else none

/-- `re.search` for an anchored matcher: try each position left to right and
return the first match. -/
def searchWith (matchAt : Str → Option MatchRes) : Str → Option MatchRes
  | [] => matchAt []
  | c :: cs =>
    match matchAt (c :: cs) with
    | some m => some m
    | none => searchWith matchAt cs

/-- The compiled rule regex `version = "(v\d+\.\d+\.\d+)"` of `VERSION_FILES`
(src/v-and-r.py:800). -/
def regexVQuoted : PyRegex :=
  ⟨searchWith matchQuotedAt, 1, "version = \"(v\\d+\\.\\d+\\.\\d+)\"".toList⟩

example :
    (regexVQuoted.search ("x = 1\nversion = \"v1.2.3\"\ny".toList)).map (fun m => (m.g0, m.g1))
      = some ("version = \"v1.2.3\"".toList, "v1.2.3".toList) := by decide
example : regexVQuoted.search ("version = v1.2.3".toList) = none := by decide

/-! ### Concrete fixtures used by witnesses and counterexamples -/

/-- A registry of three literal-path rules over the quoted-version pattern,
one per sample file (the shape of `VERSION_FILES`, src/v-and-r.py:789-847). -/
def cfgsThree : List FileConfig :=
  [⟨"sample/a.py".toList, regexVQuoted, "version = \"{version}\"".toList⟩,
   ⟨"sample/b.py".toList, regexVQuoted, "version = \"{version}\"".toList⟩,
   ⟨"sample/c.py".toList, regexVQuoted, "version = \"{version}\"".toList⟩]

/-- Three files reporting versions `v1.2.3`, `v1.2.2`, `v1.2.3`. -/
def fsThree : FS :=
  ⟨[("sample/a.py".toList, "version = \"v1.2.3\"\n".toList),
    ("sample/b.py".toList, "version = \"v1.2.2\"\n".toList),
    ("sample/c.py".toList, "version = \"v1.2.3\"\n".toList)], [], []⟩

/-- C4: in the increment workflow one new version string is computed exactly
once, by incrementing the highest version found across all scanned files, and
that same single string is passed to every file update.  Part 1 is the
end-to-end scenario of the claim: three files reporting `v1.2.3`, `v1.2.2`,
`v1.2.3` under a minor increment are all rewritten to `v1.3.0`.  Part 2 is
the general structure of `_execute_increment_command`: any successful run
computed its new version as the increment of the highest scanned version, and
the per-file update loop was run with exactly that one string. -/
theorem C4_single_new_version_for_all_files :
    ((execute_increment cfgsThree fsThree .minor).map
        (fun out => (out.newVersion, out.results, out.fsOut.files))
      = .ok ("v1.3.0".toList,
          [("sample/a.py".toList, true), ("sample/b.py".toList, true),
           ("sample/c.py".toList, true)],
          [("sample/a.py".toList, "version = \"v1.3.0\"\n".toList),
           ("sample/b.py".toList, "version = \"v1.3.0\"\n".toList),
           ("sample/c.py".toList, "version = \"v1.3.0\"\n".toList)]))
    ∧ (∀ (cfgs : List FileConfig) (fs : FS) (ity : IncType) (out : IncrementOutcome),
        execute_increment cfgs fs ity = .ok out →
        ∃ found current,
          find_versions_in_files cfgs fs = .ok found ∧
          found.isEmpty = false ∧
          find_highest_version (found.map (·.2)) = .ok current ∧
          incrementBy ity current = .ok out.newVersion ∧
          (out.results, out.fsOut)
            = incrementUpdateLoop cfgs out.newVersion (expand_file_patterns cfgs fs) fs) := by
  constructor
  · decide
  · intro cfgs fs ity out h
    unfold execute_increment at h
    split at h
    · exact absurd h (by simp)
    · next found hfv =>
      split at h
      · exact absurd h (by simp)
      · next hemp =>
        split at h
        · exact absurd h (by simp)
        · next current hhv =>
          split at h
          · exact absurd h (by simp)
          · next nv hinc =>
            simp only [Except.ok.injEq] at h
            subst h
            exact ⟨found, current, hfv, Bool.of_not_eq_true hemp, hhv, hinc, rfl⟩

/-- Witness for C4 part 2 at the concrete three-file scenario. -/
theorem C4_single_new_version_for_all_files_witness :
    ∃ found current,
      find_versions_in_files cfgsThree fsThree = .ok found ∧
      found.isEmpty = false ∧
      find_highest_version (found.map (·.2)) = .ok current ∧
      incrementBy .minor current = .ok ("v1.3.0".toList) ∧
      ([("sample/a.py".toList, true), ("sample/b.py".toList, true),
        ("sample/c.py".toList, true)],
        (⟨[("sample/a.py".toList, "version = \"v1.3.0\"\n".toList),
           ("sample/b.py".toList, "version = \"v1.3.0\"\n".toList),
           ("sample/c.py".toList, "version = \"v1.3.0\"\n".toList)], [], []⟩ : FS))
        = incrementUpdateLoop cfgsThree ("v1.3.0".toList)
            (expand_file_patterns cfgsThree fsThree) fsThree :=
  C4_single_new_version_for_all_files.2 cfgsThree fsThree .minor
    ⟨"v1.3.0".toList,
      [("sample/a.py".toList, true), ("sample/b.py".toList, true),
       ("sample/c.py".toList, true)],
      ⟨[("sample/a.py".toList, "version = \"v1.3.0\"\n".toList),
        ("sample/b.py".toList, "version = \"v1.3.0\"\n".toList),
        ("sample/c.py".toList, "version = \"v1.3.0\"\n".toList)], [], []⟩,
      [("sample/a.py".toList, "version = \"v1.2.3\"\n".toList),
       ("sample/b.py".toList, "version = \"v1.2.2\"\n".toList),
       ("sample/c.py".toList, "version = \"v1.2.3\"\n".toList)]⟩
    (by decide)

/-- The per-path loop of `update_all_files` records exactly one entry per
visited path, in order, whatever each update returns or raises. -/
theorem updateAllGo_keys (cfgs : List FileConfig) (nv : Str) :
    ∀ (files : List Str) (fs' : FS),
      ((update_all_files.go cfgs nv files fs').1).map (·.1) = files := by
  intro files
  induction files with
  | nil => intro fs'; rfl
  | cons path rest ih =>
    intro fs'
    unfold update_all_files.go
    cases h : update_file_version cfgs fs' path nv with
    | ok pr => cases pr with | mk b fs'' => simp [h, ih]
    | error e => simp [h, ih]

/-- A batch where `sample/a.py` matches and is writable, `sample/b.py` has no
version marker, and writing `sample/c.py` raises. -/
def fsMixed : FS :=
  ⟨[("sample/a.py".toList, "version = \"v1.2.3\"\n".toList),
    ("sample/b.py".toList, "no marker here\n".toList),
    ("sample/c.py".toList, "version = \"v1.2.3\"\n".toList)],
   [("sample/c.py".toList)], []⟩

/-- C5: `update_all_files` returns one boolean entry per expanded path; a
per-file `FileError` is caught and recorded as `false` and the batch
continues.  Part 1: the result map has exactly one entry per expanded path,
in order.  That `update_all_files` never raises is expressed by its total
return type `List (Str × Bool) × FS`: the only fallible call,
`update_file_version`, is matched on and its `error` case recorded as
`false`.  Part 2: the claim's 3-file scenario (one success, one no-match,
one write failure) yields exactly one `true` and two `false` entries. -/
theorem C5_update_all_files_batch :
    (∀ (cfgs : List FileConfig) (fs : FS) (nv : Str),
        ((update_all_files cfgs fs nv).1).map (·.1) = expand_file_patterns cfgs fs)
    ∧ (update_all_files cfgsThree fsMixed ("v2.0.0".toList)).1
        = [("sample/a.py".toList, true), ("sample/b.py".toList, false),
           ("sample/c.py".toList, false)]
    ∧ (update_all_files cfgsThree fsMixed ("v2.0.0".toList)).2.files
        = [("sample/a.py".toList, "version = \"v2.0.0\"\n".toList),
           ("sample/b.py".toList, "no marker here\n".toList),
           ("sample/c.py".toList, "version = \"v1.2.3\"\n".toList)] := by
  refine ⟨?_, by decide, by decide⟩
  intro cfgs fs nv
  unfold update_all_files
  exact updateAllGo_keys cfgs nv (expand_file_patterns cfgs fs) fs

theorem lookup_setAssoc_self (l : List (Str × Str)) (p c : Str) :
    (setAssoc l p c).lookup p = some c := by
  induction l with
  | nil => simp [setAssoc, List.lookup]
  | cons hd tl ih =>
    cases hd with
    | mk k v =>
      by_cases h : k = p
      · subst h; simp [setAssoc, List.lookup]
      · have hpk : (p == k) = false := beq_eq_false_iff_ne.mpr (Ne.symm h)
        simp [setAssoc, h, List.lookup, hpk, ih]

theorem lookup_setAssoc_other (l : List (Str × Str)) (p c q : Str) (h : q ≠ p) :
    (setAssoc l p c).lookup q = l.lookup q := by
  have hqp : (q == p) = false := beq_eq_false_iff_ne.mpr h
  induction l with
  | nil => simp [setAssoc, List.lookup, hqp]
  | cons hd tl ih =>
    cases hd with
    | mk k v =>
      by_cases hk : k = p
      · subst hk; simp [setAssoc, List.lookup, hqp]
      · by_cases hq : q = k
        · subst hq; simp [setAssoc, hk, List.lookup]
        · have hqk : (q == k) = false := beq_eq_false_iff_ne.mpr hq
          simp [setAssoc, hk, List.lookup, hqk, ih]

/-- The structural facts of the rollback loop, by induction over the
snapshots: the reported lists are exactly the snapshotted paths whose entry
in the success map is true, partitioned by whether the write raises;
`writeFail`/`readFail` never change; and the content of any path that never
appears in the snapshots with a true success entry is untouched. -/
theorem rollback_spec (ur : List (Str × Bool)) :
    ∀ (oc : List (Str × Str)) (fs : FS),
      (rollback_file_changes fs oc ur).2.1
        = ((oc.filter (fun pc => (ur.lookup pc.1).getD false)).map (·.1)).filter
            (fun p => !(decide (p ∈ fs.writeFail)))
      ∧ (rollback_file_changes fs oc ur).2.2
        = ((oc.filter (fun pc => (ur.lookup pc.1).getD false)).map (·.1)).filter
            (fun p => decide (p ∈ fs.writeFail))
      ∧ (rollback_file_changes fs oc ur).1.writeFail = fs.writeFail
      ∧ (rollback_file_changes fs oc ur).1.readFail = fs.readFail
      ∧ ∀ q, (∀ c, (q, c) ∈ oc → (ur.lookup q).getD false = false) →
          (rollback_file_changes fs oc ur).1.files.lookup q = fs.files.lookup q := by
  intro oc
  induction oc with
  | nil => intro fs; simp [rollback_file_changes]
  | cons hd rest ih =>
    intro fs
    cases hd with
    | mk path content =>
      by_cases hu : (ur.lookup path).getD false
      · by_cases hw : path ∈ fs.writeFail
        · have hwr : fsWrite fs path content
              = .error (.fileError (("Cannot access file ".toList) ++ path)) := by
            simp [fsWrite, hw]
          have hre : rollback_file_changes fs ((path, content) :: rest) ur
              = ((rollback_file_changes fs rest ur).1,
                 (rollback_file_changes fs rest ur).2.1,
                 path :: (rollback_file_changes fs rest ur).2.2) := by
            simp [rollback_file_changes, hu, hwr]
          obtain ⟨h1, h2, h3, h4, h5⟩ := ih fs
          refine ⟨?_, ?_, ?_, ?_, ?_⟩
          · rw [hre]; simp [hu, hw, h1]
          · rw [hre]; simp [hu, hw, h2]
          · rw [hre]; exact h3
          · rw [hre]; exact h4
          · intro q hq
            rw [hre]
            exact h5 q (fun c hc => hq c (List.mem_cons_of_mem _ hc))
        · have hwr : fsWrite fs path content
              = .ok { fs with files := setAssoc fs.files path content } := by
            simp [fsWrite, hw]
          have hre : rollback_file_changes fs ((path, content) :: rest) ur
              = ((rollback_file_changes { fs with files := setAssoc fs.files path content } rest ur).1,
                 path :: (rollback_file_changes { fs with files := setAssoc fs.files path content } rest ur).2.1,
                 (rollback_file_changes { fs with files := setAssoc fs.files path content } rest ur).2.2) := by
            simp [rollback_file_changes, hu, hwr]
          obtain ⟨h1, h2, h3, h4, h5⟩ := ih { fs with files := setAssoc fs.files path content }
          refine ⟨?_, ?_, ?_, ?_, ?_⟩
          · rw [hre]; simp [hu, hw, h1]
          · rw [hre]; simp [hu, hw, h2]
          · rw [hre]; exact h3
          · rw [hre]; exact h4
          · intro q hq
            rw [hre]
            by_cases hqp : q = path
            · subst hqp
              have := hq content (by simp)
              rw [hu] at this
              exact absurd this (by simp)
            · rw [h5 q (fun c hc => hq c (List.mem_cons_of_mem _ hc))]
              exact lookup_setAssoc_other fs.files path content q hqp
      · have hu' : (ur.lookup path).getD false = false := by
          simpa using hu
        have hre : rollback_file_changes fs ((path, content) :: rest) ur
            = rollback_file_changes fs rest ur := by
          simp [rollback_file_changes, hu']
        obtain ⟨h1, h2, h3, h4, h5⟩ := ih fs
        refine ⟨?_, ?_, ?_, ?_, ?_⟩
        · rw [hre]; simp [hu', h1]
        · rw [hre]; simp [hu', h2]
        · rw [hre]; exact h3
        · rw [hre]; exact h4
        · intro q hq
          rw [hre]
          exact h5 q (fun c hc => hq c (List.mem_cons_of_mem _ hc))

/-- Restoration: under distinct snapshot keys, every snapshotted path whose
success entry is true and whose write-back does not raise ends up holding its
snapshot content. -/
theorem rollback_restores (ur : List (Str × Bool)) :
    ∀ (oc : List (Str × Str)) (fs : FS) (p c : Str),
      (oc.map (·.1)).Nodup → (p, c) ∈ oc → (ur.lookup p).getD false = true →
      p ∉ fs.writeFail →
      (rollback_file_changes fs oc ur).1.files.lookup p = some c := by
  intro oc
  induction oc with
  | nil => intro fs p c _ hm; exact absurd hm (List.not_mem_nil _)
  | cons hd rest ih =>
    intro fs p c hnd hm hu hw
    cases hd with
    | mk q d =>
      rcases List.mem_cons.mp hm with heq | hmem
      · cases heq
        have hwr : fsWrite fs p c
            = .ok { fs with files := setAssoc fs.files p c } := by
          simp [fsWrite, hw]
        have hre : rollback_file_changes fs ((p, c) :: rest) ur
            = ((rollback_file_changes { fs with files := setAssoc fs.files p c } rest ur).1,
               p :: (rollback_file_changes { fs with files := setAssoc fs.files p c } rest ur).2.1,
               (rollback_file_changes { fs with files := setAssoc fs.files p c } rest ur).2.2) := by
          simp [rollback_file_changes, hu, hwr]
        rw [hre]
        have hnotin : p ∉ rest.map (·.1) := by
          have := hnd
          simp only [List.map_cons, List.nodup_cons] at this
          exact this.1
        obtain ⟨_, _, _, _, h5⟩ :=
          rollback_spec ur rest { fs with files := setAssoc fs.files p c }
        rw [h5 p (fun c' hc' => absurd (List.mem_map.mpr ⟨(p, c'), hc', rfl⟩) hnotin)]
        exact lookup_setAssoc_self fs.files p c
      · have hqp : q ≠ p := by
          have hkey : p ∈ rest.map (·.1) := List.mem_map.mpr ⟨(p, c), hmem, rfl⟩
          have := hnd
          simp only [List.map_cons, List.nodup_cons] at this
          intro hqp'; exact this.1 (hqp' ▸ hkey)
        have hnd' : (rest.map (·.1)).Nodup := by
          have := hnd
          simp only [List.map_cons, List.nodup_cons] at this
          exact this.2
        by_cases huq : (ur.lookup q).getD false
        · by_cases hwq : q ∈ fs.writeFail
          · have hwr : fsWrite fs q d
                = .error (.fileError (("Cannot access file ".toList) ++ q)) := by
              simp [fsWrite, hwq]
            have hre : rollback_file_changes fs ((q, d) :: rest) ur
                = ((rollback_file_changes fs rest ur).1,
                   (rollback_file_changes fs rest ur).2.1,
                   q :: (rollback_file_changes fs rest ur).2.2) := by
              simp [rollback_file_changes, huq, hwr]
            rw [hre]
            exact ih fs p c hnd' hmem hu hw
          · have hwr : fsWrite fs q d
                = .ok { fs with files := setAssoc fs.files q d } := by
              simp [fsWrite, hwq]
            have hre : rollback_file_changes fs ((q, d) :: rest) ur
                = ((rollback_file_changes { fs with files := setAssoc fs.files q d } rest ur).1,
                   q :: (rollback_file_changes { fs with files := setAssoc fs.files q d } rest ur).2.1,
                   (rollback_file_changes { fs with files := setAssoc fs.files q d } rest ur).2.2) := by
              simp [rollback_file_changes, huq, hwr]
            rw [hre]
            exact ih { fs with files := setAssoc fs.files q d } p c hnd' hmem hu hw
        · have huq' : (ur.lookup q).getD false = false := by simpa using huq
          have hre : rollback_file_changes fs ((q, d) :: rest) ur
              = rollback_file_changes fs rest ur := by
            simp [rollback_file_changes, huq']
          rw [hre]
          exact ih fs p c hnd' hmem hu hw

/-- C2: rollback writes the captured original content back to exactly those
snapshotted paths whose entry in the success map is true; other paths are
never written; a write-back failure is individually reported (it appears in
the error list) and the remaining paths are still attempted.  Conjuncts:
(1) the rolled-back paths are exactly the snapshotted success-map-true paths
whose write does not raise, in order; (2) the reported failures are exactly
the snapshotted success-map-true paths whose write raises — together (1) and
(2) show every such path is attempted, so one failure stops nothing; (3) a
path with no true success entry keeps its prior content (it is never written:
by (1)/(2) it is in neither attempted partition); (4) under distinct snapshot
keys, every attempted path whose write succeeds holds its snapshot content
afterwards. -/
theorem C2_rollback_exactly_successes (fs : FS) (oc : List (Str × Str))
    (ur : List (Str × Bool)) :
    ((rollback_file_changes fs oc ur).2.1
        = ((oc.filter (fun pc => (ur.lookup pc.1).getD false)).map (·.1)).filter
            (fun p => !(decide (p ∈ fs.writeFail))))
    ∧ ((rollback_file_changes fs oc ur).2.2
        = ((oc.filter (fun pc => (ur.lookup pc.1).getD false)).map (·.1)).filter
            (fun p => decide (p ∈ fs.writeFail)))
    ∧ (∀ q, (∀ c, (q, c) ∈ oc → (ur.lookup q).getD false = false) →
        (rollback_file_changes fs oc ur).1.files.lookup q = fs.files.lookup q)
    ∧ ((oc.map (·.1)).Nodup → ∀ p c, (p, c) ∈ oc →
        (ur.lookup p).getD false = true → p ∉ fs.writeFail →
        (rollback_file_changes fs oc ur).1.files.lookup p = some c) := by
  obtain ⟨h1, h2, _, _, h5⟩ := rollback_spec ur oc fs
  exact ⟨h1, h2, h5, fun hnd p c hm hu hw => rollback_restores ur oc fs p c hnd hm hu hw⟩

/-- Snapshots of a three-file batch. -/
def ocRB : List (Str × Str) :=
  [("sample/a.py".toList, "version = \"v1.0.0\"\n".toList),
   ("sample/b.py".toList, "no marker here\n".toList),
   ("sample/c.py".toList, "version = \"v1.0.1\"\n".toList)]

/-- Success map: `a` and `c` were actually changed, `b` was not. -/
def urRB : List (Str × Bool) :=
  [("sample/a.py".toList, true), ("sample/b.py".toList, false),
   ("sample/c.py".toList, true)]

/-- Post-batch file system: `a` and `c` updated, writing `c` back raises. -/
def fsRB : FS :=
  ⟨[("sample/a.py".toList, "version = \"v2.0.0\"\n".toList),
    ("sample/b.py".toList, "no marker here\n".toList),
    ("sample/c.py".toList, "version = \"v2.0.0\"\n".toList)],
   [("sample/c.py".toList)], []⟩

/-- Witness for C2: on the three-file batch, `a` is rolled back to its
snapshot, the failure on `c` is reported, and `b` is untouched. -/
theorem C2_rollback_exactly_successes_witness :
    (rollback_file_changes fsRB ocRB urRB).2.1 = [("sample/a.py".toList)]
    ∧ (rollback_file_changes fsRB ocRB urRB).2.2 = [("sample/c.py".toList)]
    ∧ (rollback_file_changes fsRB ocRB urRB).1.files.lookup ("sample/b.py".toList)
        = fsRB.files.lookup ("sample/b.py".toList)
    ∧ (rollback_file_changes fsRB ocRB urRB).1.files.lookup ("sample/a.py".toList)
        = some ("version = \"v1.0.0\"\n".toList) := by
  obtain ⟨h1, h2, h3, h4⟩ := C2_rollback_exactly_successes fsRB ocRB urRB
  refine ⟨?_, ?_, ?_, ?_⟩
  · rw [h1]; decide
  · rw [h2]; decide
  · exact h3 _ (fun c hc => by decide)
  · exact h4 (by decide) _ _ (by decide) (by decide) (by decide)

/-- An invalid rule, per the kinds enumerated by the spec: a missing field,
a regex without a capture group, or a template lacking the placeholder. -/
def badEntry (c : ConfigEntry) : Prop :=
  c.file = none ∨ c.pattern = none ∨ c.template = none ∨
  (∃ p, c.pattern = some p ∧ p.groups < 1) ∨
  (∃ t, c.template = some t ∧ strContains t ("{version}".toList) = false)

/-- A rule that passes every check of `validate_version_files_config`. -/
def goodEntry (c : ConfigEntry) : Prop :=
  (∃ f, c.file = some f ∧ (pyStrip f).isEmpty = false) ∧
  (∃ p, c.pattern = some p ∧ 1 ≤ p.groups) ∧
  (∃ t, c.template = some t ∧ strContains t ("{version}".toList) = true)

theorem validateConfigEntry_bad (c : ConfigEntry) (hb : badEntry c) :
    ∃ msg, validateConfigEntry c = .error (.fileError msg) := by
  rcases c with ⟨f, p, t⟩
  cases f with
  | none => exact ⟨_, rfl⟩
  | some f =>
    cases p with
    | none => exact ⟨_, rfl⟩
    | some p =>
      cases t with
      | none => exact ⟨_, rfl⟩
      | some t =>
        by_cases hc : strContains t ("{version}".toList)
        · have hg : p.groups < 1 := by
            rcases hb with h | h | h | ⟨p', hp', hg⟩ | ⟨t', ht', hc'⟩
            · exact absurd h (by simp)
            · exact absurd h (by simp)
            · exact absurd h (by simp)
            · cases hp'; exact hg
            · cases ht'; rw [hc'] at hc; exact absurd hc (by simp)
          refine ⟨("Regex pattern must have at least one capture group: ".toList) ++ p.source, ?_⟩
          simp only [validateConfigEntry, hc, Bool.not_true]
          rw [if_neg (by simp), if_pos hg]
        · have hc' : strContains t ("{version}".toList) = false := by simpa using hc
          refine ⟨("Template must contain {version} placeholder: ".toList) ++ t, ?_⟩
          simp only [validateConfigEntry]
          rw [if_pos (by rw [hc']; rfl)]

theorem validateConfigEntry_err (c : ConfigEntry) (e : Err)
    (h : validateConfigEntry c = .error e) : ∃ msg, e = .fileError msg := by
  rcases c with ⟨f, p, t⟩
  cases f with
  | none => simp [validateConfigEntry] at h; exact ⟨_, h.symm⟩
  | some f =>
    cases p with
    | none => simp [validateConfigEntry] at h; exact ⟨_, h.symm⟩
    | some p =>
      cases t with
      | none => simp [validateConfigEntry] at h; exact ⟨_, h.symm⟩
      | some t =>
        simp only [validateConfigEntry] at h
        by_cases hc : strContains t ("{version}".toList)
        · rw [if_neg (by rw [hc]; simp)] at h
          by_cases hg : p.groups < 1
          · rw [if_pos hg] at h
            simp at h
            exact ⟨_, h.symm⟩
          · rw [if_neg hg] at h
            simp at h
        · have hcf : strContains t ("{version}".toList) = false := by simpa using hc
          rw [if_pos (by rw [hcf]; rfl)] at h
          simp at h
          exact ⟨_, h.symm⟩

theorem initConfigs_bad :
    ∀ (cfgs : List ConfigEntry) (i : Nat) (c : ConfigEntry),
      cfgs[i]? = some c → badEntry c →
      ∃ msg, initConfigs cfgs = .error (.fileError msg) := by
  intro cfgs
  induction cfgs with
  | nil => intro i c h; simp at h
  | cons c0 rest ih =>
    intro i c h hb
    cases i with
    | zero =>
      simp at h
      subst h
      obtain ⟨msg, hmsg⟩ := validateConfigEntry_bad c0 hb
      exact ⟨msg, by simp [initConfigs, hmsg]⟩
    | succ j =>
      simp at h
      cases hv : validateConfigEntry c0 with
      | error e =>
        obtain ⟨msg, hmsg⟩ := validateConfigEntry_err c0 e hv
        subst hmsg
        exact ⟨msg, by simp [initConfigs, hv]⟩
      | ok ftp =>
        obtain ⟨msg, hmsg⟩ := ih j c h hb
        rcases ftp with ⟨f, p, t⟩
        exact ⟨msg, by simp [initConfigs, hv, hmsg]⟩

theorem validateEntryIndexed_good (i : Nat) (c : ConfigEntry) (hg : goodEntry c) :
    validateEntryIndexed i c = .ok () := by
  obtain ⟨⟨f, hf, hfe⟩, ⟨p, hp, hpg⟩, ⟨t, ht, htc⟩⟩ := hg
  rcases c with ⟨cf, cp, ct⟩
  simp only at hf hp ht
  subst hf; subst hp; subst ht
  simp only [validateEntryIndexed]
  rw [if_neg (by rw [hfe]; simp), if_neg (by omega), if_neg (by rw [htc]; simp)]

theorem validateEntryIndexed_bad (i : Nat) (c : ConfigEntry) (hb : badEntry c) :
    ∃ rest, validateEntryIndexed i c
      = .error (.fileError ((("Configuration entry ".toList) ++ natRepr i) ++ rest)) := by
  rcases c with ⟨f, p, t⟩
  cases f with
  | none => exact ⟨_, rfl⟩
  | some f =>
    cases p with
    | none => exact ⟨_, rfl⟩
    | some p =>
      cases t with
      | none => exact ⟨_, rfl⟩
      | some t =>
        by_cases hfe : (pyStrip f).isEmpty
        · refine ⟨(": 'file' must be a non-empty string".toList), ?_⟩
          simp only [validateEntryIndexed]
          rw [if_pos hfe]
        · by_cases hg : p.groups < 1
          · refine ⟨(": regex pattern must have at least one capture group for version".toList), ?_⟩
            simp only [validateEntryIndexed]
            rw [if_neg hfe, if_pos hg]
          · have hcf : strContains t ("{version}".toList) = false := by
              rcases hb with h | h | h | ⟨p', hp', hg'⟩ | ⟨t', ht', hc'⟩
              · exact absurd h (by simp)
              · exact absurd h (by simp)
              · exact absurd h (by simp)
              · cases hp'; exact absurd hg' hg
              · cases ht'; exact hc'
            refine ⟨(": template must contain '{version}' placeholder".toList), ?_⟩
            simp only [validateEntryIndexed]
            rw [if_neg hfe, if_neg hg, if_pos (by rw [hcf]; rfl)]

theorem validateAllGo_bad :
    ∀ (cfgs : List ConfigEntry) (k i : Nat) (c : ConfigEntry),
      cfgs[i]? = some c → badEntry c →
      (∀ j cj, j < i → cfgs[j]? = some cj → goodEntry cj) →
      ∃ rest, validateAllGo k cfgs
        = .error (.fileError ((("Configuration entry ".toList) ++ natRepr (k + i)) ++ rest)) := by
  intro cfgs
  induction cfgs with
  | nil => intro k i c h; simp at h
  | cons c0 rest ih =>
    intro k i c h hb hgood
    cases i with
    | zero =>
      simp at h
      subst h
      obtain ⟨r, hr⟩ := validateEntryIndexed_bad k c0 hb
      exact ⟨r, by simp [validateAllGo, hr]⟩
    | succ j =>
      simp at h
      have hg0 : goodEntry c0 := hgood 0 c0 (by omega) (by simp)
      have hok := validateEntryIndexed_good k c0 hg0
      obtain ⟨r, hr⟩ := ih (k + 1) j c h hb
        (fun j' cj hj' hcj => hgood (j' + 1) cj (by omega) (by simpa using hcj))
      refine ⟨r, ?_⟩
      have hadd : k + 1 + j = k + (j + 1) := by omega
      rw [hadd] at hr
      simp [validateAllGo, hok, hr]

/-- A valid first rule (README style, src/v-and-r.py:791-795). -/
def ceGood : ConfigEntry :=
  ⟨some ("README.md".toList), some regexVQuoted, some ("- Version {version}".toList)⟩

/-- A rule at index 1 whose `file` key is missing. -/
def ceMissingFile : ConfigEntry :=
  ⟨none, some regexVQuoted, some ("- Version {version}".toList)⟩

/-- C6 counterexample: `FileManager.__init__` rejects the rule set whose
entry at index 1 lacks the `file` key, but its error message
(`"Missing required configuration key: file"`, src/v-and-r.py:308) contains
no digit at all — in particular it does not name the offending rule index 1.
The index-carrying messages live only in the module-level
`validate_version_files_config`. -/
theorem C6_init_error_does_not_name_index :
    fileManagerInit [ceGood, ceMissingFile]
      = .error (.fileError ("Missing required configuration key: file".toList))
    ∧ ∀ c ∈ ("Missing required configuration key: file".toList), c.isDigit = false := by
  constructor
  · rfl
  · decide

/-- C6 (amended): registry construction fails fast with a `FileError` (the
configuration-error kind), before any file I/O — neither validation function
touches a file system — for every invalid rule set: an empty list, an entry
missing one of the three keys, a regex without a capture group, or a template
lacking the `{version}` placeholder.  The error from `FileManager.__init__`
names the reason only; the rule index is named by the module-level
`validate_version_files_config`, whose message for the first offending index
`i` begins `"Configuration entry i"`. -/
theorem C6_registry_validation_fails_fast :
    (fileManagerInit [] = .error (.fileError ("VERSION_FILES configuration cannot be empty".toList)))
    ∧ (validate_version_files_config []
        = .error (.fileError ("VERSION_FILES configuration cannot be empty".toList)))
    ∧ (∀ (cfgs : List ConfigEntry) (i : Nat) (c : ConfigEntry),
        cfgs[i]? = some c → badEntry c →
        ∃ msg, fileManagerInit cfgs = .error (.fileError msg))
    ∧ (∀ (cfgs : List ConfigEntry) (i : Nat) (c : ConfigEntry),
        cfgs[i]? = some c → badEntry c →
        (∀ j cj, j < i → cfgs[j]? = some cj → goodEntry cj) →
        ∃ rest, validate_version_files_config cfgs
          = .error (.fileError ((("Configuration entry ".toList) ++ natRepr i) ++ rest))) := by
  refine ⟨rfl, rfl, ?_, ?_⟩
  · intro cfgs i c h hb
    obtain ⟨msg, hmsg⟩ := initConfigs_bad cfgs i c h hb
    refine ⟨msg, ?_⟩
    have hne : cfgs.isEmpty = false := by
      cases cfgs with
      | nil => simp at h
      | cons _ _ => rfl
    simp [fileManagerInit, hne, hmsg]
  · intro cfgs i c h hb hgood
    obtain ⟨r, hr⟩ := validateAllGo_bad cfgs 0 i c h hb hgood
    refine ⟨r, ?_⟩
    have hne : cfgs.isEmpty = false := by
      cases cfgs with
      | nil => simp at h
      | cons _ _ => rfl
    rw [Nat.zero_add] at hr
    simp [validate_version_files_config, hne, hr]

/-- Witness for C6 at the two-entry rule set with entry 1 missing `file`. -/
theorem C6_registry_validation_fails_fast_witness :
    (∃ msg, fileManagerInit [ceGood, ceMissingFile] = .error (.fileError msg))
    ∧ (∃ rest, validate_version_files_config [ceGood, ceMissingFile]
        = .error (.fileError ((("Configuration entry ".toList) ++ natRepr 1) ++ rest))) := by
  have hgood0 : goodEntry ceGood :=
    ⟨⟨_, rfl, by decide⟩, ⟨_, rfl, by decide⟩, ⟨_, rfl, by decide⟩⟩
  refine ⟨?_, ?_⟩
  · exact C6_registry_validation_fails_fast.2.2.1 [ceGood, ceMissingFile] 1 ceMissingFile
      (by simp) (Or.inl rfl)
  · refine C6_registry_validation_fails_fast.2.2.2 [ceGood, ceMissingFile] 1 ceMissingFile
      (by simp) (Or.inl rfl) ?_
    intro j cj hj hcj
    interval_cases j
    simp at hcj
    subst hcj
    exact hgood0

/-- C9: when the directory is not under version control,
`generate_release_info` returns a record with `commit_hash = "unknown"`, no
previous version and an empty commit list, and does not raise; the only
failure it propagates is the version-resolution step (no versions found /
unreadable configured file), which is independent of git.  Conjuncts:
(1) whenever version resolution succeeds the result is exactly the default
record; (2) every successful result carries the three defaults; (3) an error
can only be the version-resolution error. -/
theorem C9_release_info_without_repo (cfgs : List FileConfig) (fs : FS)
    (git : GitModel) (ts : Str) (hrepo : git.isRepo = false) :
    (∀ v, currentVersionStep cfgs fs = .ok v →
        generate_release_info cfgs fs git ts
          = .ok ⟨v, ts, "unknown".toList, [], none⟩)
    ∧ (∀ r, generate_release_info cfgs fs git ts = .ok r →
        r.commit_hash = "unknown".toList ∧ r.commits = [] ∧ r.previous_version = none)
    ∧ (∀ e, generate_release_info cfgs fs git ts = .error e →
        currentVersionStep cfgs fs = .error e) := by
  refine ⟨?_, ?_, ?_⟩
  · intro v hv
    simp [generate_release_info, hv, hrepo]
  · intro r hr
    unfold generate_release_info at hr
    cases hcv : currentVersionStep cfgs fs with
    | error e => rw [hcv] at hr; simp at hr
    | ok v =>
      rw [hcv] at hr
      rw [hrepo] at hr
      simp at hr
      rw [← hr]
      exact ⟨rfl, rfl, rfl⟩
  · intro e he
    unfold generate_release_info at he
    cases hcv : currentVersionStep cfgs fs with
    | error e' =>
      rw [hcv] at he
      simp at he
      rw [he]
    | ok v =>
      rw [hcv] at he
      rw [hrepo] at he
      simp at he

/-- A git model whose probe reports "not a repository". -/
def gitAbsent : GitModel :=
  ⟨false, .error (.gitError ("Not in a git repository".toList)),
   .error (.gitError ("Not in a git repository".toList)),
   fun _ => .error (.gitError ("Not in a git repository".toList)),
   .error (.gitError ("Not in a git repository".toList))⟩

/-- Witness for C9 at the three-file scan with no repository. -/
theorem C9_release_info_without_repo_witness :
    generate_release_info cfgsThree fsThree gitAbsent ("2025-01-01T00:00:00".toList)
      = .ok ⟨"v1.2.3".toList, "2025-01-01T00:00:00".toList, "unknown".toList, [], none⟩ :=
  (C9_release_info_without_repo cfgsThree fsThree gitAbsent
      ("2025-01-01T00:00:00".toList) rfl).1 ("v1.2.3".toList) (by decide)

theorem pySplitGo_length (sep : Char) :
    ∀ (rest : Str) (m : Nat) (acc : Str),
      (pySplitGo sep m acc rest).length = min m (rest.count sep) + 1 := by
  intro rest
  induction rest with
  | nil => intro m acc; simp [pySplitGo]
  | cons c cs ih =>
    intro m acc
    by_cases hc : c = sep
    · subst hc
      cases m with
      | zero =>
        have : (c == c) = true := by simp
        simp [pySplitGo, ih, List.count_cons]
      | succ m' =>
        simp [pySplitGo, ih, List.count_cons]
        omega
    · have hcc : (c == sep) = false := beq_eq_false_iff_ne.mpr hc
      simp [pySplitGo, hcc, ih, List.count_cons, beq_eq_false_iff_ne.mpr (Ne.symm hc)]

theorem pySplitGo_zero (sep : Char) :
    ∀ (rest : Str) (acc : Str), pySplitGo sep 0 acc rest = [acc.reverse ++ rest] := by
  intro rest
  induction rest with
  | nil => intro acc; simp [pySplitGo]
  | cons c cs ih =>
    intro acc
    simp [pySplitGo, ih]

theorem pySplitGo_noSep (sep : Char) :
    ∀ (rest : Str) (m : Nat) (acc : Str), sep ∉ rest →
      pySplitGo sep m acc rest = [acc.reverse ++ rest] := by
  intro rest
  induction rest with
  | nil => intro m acc _; simp [pySplitGo]
  | cons c cs ih =>
    intro m acc hmem
    have hc : (c == sep) = false := by
      simp only [List.mem_cons, not_or] at hmem
      exact beq_eq_false_iff_ne.mpr (fun h => hmem.1 h.symm)
    have hcs : sep ∉ cs := by
      simp only [List.mem_cons, not_or] at hmem
      exact hmem.2
    simp [pySplitGo, hc, ih _ _ hcs]

theorem pySplitGo_append_noSep (sep : Char) :
    ∀ (xs : Str) (m : Nat) (acc rest : Str), sep ∉ xs →
      pySplitGo sep m acc (xs ++ rest) = pySplitGo sep m (xs.reverse ++ acc) rest := by
  intro xs
  induction xs with
  | nil => intro m acc rest _; simp
  | cons c cs ih =>
    intro m acc rest hmem
    have hc : (c == sep) = false := by
      simp only [List.mem_cons, not_or] at hmem
      exact beq_eq_false_iff_ne.mpr (fun h => hmem.1 h.symm)
    have hcs : sep ∉ cs := by
      simp only [List.mem_cons, not_or] at hmem
      exact hmem.2
    simp [pySplitGo, hc, ih _ _ _ hcs]

/-- `line.split('|', 3)` on a line of shape `h|m|a|d` with pipe-free `h`,
`m`, `a` yields exactly the four parts — the fourth keeps any further `|`. -/
theorem pySplitPipe3_four (h m a d : Str)
    (hh : '|' ∉ h) (hm : '|' ∉ m) (ha : '|' ∉ a) :
    pySplitPipe3 (h ++ ('|' :: (m ++ ('|' :: (a ++ ('|' :: d)))))) = [h, m, a, d] := by
  unfold pySplitPipe3
  rw [pySplitGo_append_noSep '|' h 3 [] _ hh]
  rw [show pySplitGo '|' 3 (h.reverse ++ []) ('|' :: (m ++ ('|' :: (a ++ ('|' :: d)))))
      = (h.reverse ++ []).reverse :: pySplitGo '|' 2 [] (m ++ ('|' :: (a ++ ('|' :: d)))) from by
    simp [pySplitGo]]
  rw [pySplitGo_append_noSep '|' m 2 [] _ hm]
  rw [show pySplitGo '|' 2 (m.reverse ++ []) ('|' :: (a ++ ('|' :: d)))
      = (m.reverse ++ []).reverse :: pySplitGo '|' 1 [] (a ++ ('|' :: d)) from by
    simp [pySplitGo]]
  rw [pySplitGo_append_noSep '|' a 1 [] _ ha]
  rw [show pySplitGo '|' 1 (a.reverse ++ []) ('|' :: d)
      = (a.reverse ++ []).reverse :: pySplitGo '|' 0 [] d from by
    simp [pySplitGo]]
  rw [pySplitGo_zero]
  simp

theorem pyStrip_ne_nil (s : Str) (c : Char) (hc : c ∈ s)
    (hcs : isPySpace c = false) : pyStrip s ≠ [] := by
  intro hnil
  unfold pyStrip at hnil
  rw [List.reverse_eq_nil_iff, List.dropWhile_eq_nil_iff] at hnil
  have h' : ∀ x ∈ s.dropWhile isPySpace, isPySpace x := by
    intro x hx
    exact hnil x (by simpa using hx)
  have hsplit := List.takeWhile_append_dropWhile (p := isPySpace) (l := s)
  rw [← hsplit] at hc
  rcases List.mem_append.mp hc with hcl | hcr
  · have := List.mem_takeWhile_imp hcl
    rw [hcs] at this
    exact absurd this (by simp)
  · have := h' c hcr
    rw [hcs] at this
    exact absurd this (by simp)

theorem list_length_four {α : Type} (l : List α) (h : l.length = 4) :
    ∃ a b c d, l = [a, b, c, d] := by
  match l, h with
  | [a, b, c, d], _ => exact ⟨a, b, c, d, rfl⟩

/-- C10: the shared commit parser keeps a record exactly for non-blank lines
containing at least three `|` (i.e. `split('|', 3)` yields four parts), drops
every other line silently (the parser is a total function — no error), and on
a line whose subject contains `|` the text between the first and second `|`
becomes the message while the remaining fields shift.  Conjunct 1: a
single-line input yields a record iff the line is non-blank and has at least
three pipes.  Conjunct 2: on `h|m|a|d` with pipe-free `h`, `m`, `a`, the
record is exactly `{hash h, message m, author a, date d}` — instantiated at a
subject containing `|`, `m` is the text before the second pipe and the
remaining text shifts into author and date. -/
theorem C10_commit_line_parsing :
    (∀ line : Str, '\n' ∉ line →
      (parse_commit_lines line ≠ []
        ↔ ((pyStrip line).isEmpty = false ∧ 3 ≤ line.count '|')))
    ∧ (∀ h m a d : Str,
        '\n' ∉ h → '\n' ∉ m → '\n' ∉ a → '\n' ∉ d →
        '|' ∉ h → '|' ∉ m → '|' ∉ a →
        parse_commit_lines (h ++ ('|' :: (m ++ ('|' :: (a ++ ('|' :: d))))))
          = [⟨h, m, a, d⟩]) := by
  constructor
  · intro line hnl
    have hone : pySplitLines line = [line] := by
      unfold pySplitLines
      rw [pySplitGo_noSep '\n' line line.length [] hnl]
      rfl
    have hlen : (pySplitPipe3 line).length = min 3 (line.count '|') + 1 :=
      pySplitGo_length '|' line 3 []
    unfold parse_commit_lines
    rw [hone]
    simp only [List.flatMap_cons, List.flatMap_nil, List.append_nil]
    by_cases hblank : (pyStrip line).isEmpty
    · rw [if_pos hblank]
      simp [hblank]
    · have hblank' : (pyStrip line).isEmpty = false := by simpa using hblank
      rw [if_neg (by rw [hblank']; simp)]
      by_cases hcnt : 3 ≤ line.count '|'
      · have h4 : (pySplitPipe3 line).length = 4 := by omega
        obtain ⟨a, b, c, d, habcd⟩ := list_length_four _ h4
        rw [habcd]
        simp [hblank', hcnt]
      · have h4 : (pySplitPipe3 line).length ≠ 4 := by omega
        rcases hl : pySplitPipe3 line with _ | ⟨a, _ | ⟨b, _ | ⟨c, _ | ⟨d, _ | ⟨e, tl⟩⟩⟩⟩⟩
        · simp [hblank', hcnt]
        · simp [hblank', hcnt]
        · simp [hblank', hcnt]
        · simp [hblank', hcnt]
        · rw [hl] at h4; simp at h4
        · simp [hblank', hcnt]
  · intro h m a d hnh hnm hna hnd hph hpm hpa
    have hnl : '\n' ∉ (h ++ ('|' :: (m ++ ('|' :: (a ++ ('|' :: d)))))) := by
      intro hmem
      simp only [List.mem_append, List.mem_cons] at hmem
      rcases hmem with hx | hx | hx | hx | hx | hx
      · exact hnh hx
      · exact absurd hx (by decide)
      · exact hnm hx
      · exact absurd hx (by decide)
      · exact hna hx
      · rcases hx with hx | hx
        · exact absurd hx (by decide)
        · exact hnd hx
    have hblank : (pyStrip (h ++ ('|' :: (m ++ ('|' :: (a ++ ('|' :: d))))))).isEmpty = false := by
      have hne := pyStrip_ne_nil (h ++ ('|' :: (m ++ ('|' :: (a ++ ('|' :: d)))))) '|'
        (by simp) (by decide)
      cases hemp : (pyStrip (h ++ ('|' :: (m ++ ('|' :: (a ++ ('|' :: d))))))).isEmpty with
      | false => rfl
      | true => exact absurd (List.isEmpty_iff.mp hemp) hne
    unfold parse_commit_lines
    have hone : pySplitLines (h ++ ('|' :: (m ++ ('|' :: (a ++ ('|' :: d)))))) =
        [h ++ ('|' :: (m ++ ('|' :: (a ++ ('|' :: d)))))] := by
      unfold pySplitLines
      rw [pySplitGo_noSep '\n' _ _ [] hnl]
      rfl
    rw [hone]
    simp only [List.flatMap_cons, List.flatMap_nil, List.append_nil]
    rw [if_neg (by rw [hblank]; simp)]
    rw [pySplitPipe3_four h m a d hph hpm hpa]

/-- Witness for C10: a pipe-free line yields no record, and a log line whose
subject contains `|` shifts the fields exactly as the split dictates. -/
theorem C10_commit_line_parsing_witness :
    (parse_commit_lines ("no pipes here".toList) ≠ []
      ↔ ((pyStrip ("no pipes here".toList)).isEmpty = false
          ∧ 3 ≤ ("no pipes here".toList).count '|'))
    ∧ parse_commit_lines
        ("abc".toList ++ ('|' ::
          ("fix: a".toList ++ ('|' :: ("b".toList ++ ('|' :: "Ann|2024-01-01".toList))))))
        = [⟨"abc".toList, "fix: a".toList, "b".toList, "Ann|2024-01-01".toList⟩] :=
  ⟨C10_commit_line_parsing.1 _ (by decide),
   C10_commit_line_parsing.2 _ _ _ _ (by decide) (by decide) (by decide) (by decide)
     (by decide) (by decide) (by decide)⟩

/-- A non-empty run of ASCII digits — one `(\d+)` group of the spec regex. -/
def IsDigitStr (d : Str) : Prop := d ≠ [] ∧ ∀ c ∈ d, c.isDigit = true

/-- The spec's wording for `parse`: the trimmed string matches
`^v?(\d+)\.(\d+)\.(\d+)$` in full, and the triple is the value of the three
capture groups.  Written from the spec sentence, independently of the
implementation, for the refinement proof of C7. -/
def MatchesVersionRegex (cs : Str) (m n p : Nat) : Prop :=
  ∃ d1 d2 d3 : Str,
    IsDigitStr d1 ∧ IsDigitStr d2 ∧ IsDigitStr d3 ∧
    (cs = d1 ++ ('.' :: (d2 ++ ('.' :: d3)))
      ∨ cs = 'v' :: (d1 ++ ('.' :: (d2 ++ ('.' :: d3))))) ∧
    m = digitsToNat d1 ∧ n = digitsToNat d2 ∧ p = digitsToNat d3

theorem takeWhile_digit_run (d rest : Str) (hd : ∀ c ∈ d, c.isDigit = true)
    (hr : rest = [] ∨ ∃ t, rest = '.' :: t) :
    (d ++ rest).takeWhile Char.isDigit = d
    ∧ (d ++ rest).dropWhile Char.isDigit = rest := by
  induction d with
  | nil =>
    rcases hr with h | ⟨t, h⟩
    · subst h; exact ⟨rfl, rfl⟩
    · subst h; exact ⟨by simp [List.takeWhile], by simp [List.dropWhile]⟩
  | cons c d' ih =>
    have hc : c.isDigit = true := hd c (by simp)
    have hd' : ∀ x ∈ d', x.isDigit = true := fun x hx => hd x (by simp [hx])
    obtain ⟨ht, hdr⟩ := ih hd'
    constructor
    · simp [List.takeWhile_cons, hc, ht]
    · simp [List.dropWhile_cons, hc, hdr]

theorem digit_ne_v (c : Char) (hc : c.isDigit = true) : c ≠ 'v' := by
  intro h
  subst h
  exact absurd hc (by decide)


theorem takeDigits1_some (s d r : Str) (h : takeDigits1 s = some (d, r)) :
    IsDigitStr d ∧ s = d ++ r := by
  unfold takeDigits1 at h
  split at h
  · exact absurd h (by simp)
  · next hne =>
    simp only [Option.some.injEq, Prod.mk.injEq] at h
    obtain ⟨hd, hr⟩ := h
    subst hd; subst hr
    exact ⟨⟨hne, fun c hc => List.mem_takeWhile_imp hc⟩,
      (List.takeWhile_append_dropWhile Char.isDigit s).symm⟩

theorem takeDigits1_of_run (d rest : Str) (hd : IsDigitStr d)
    (hr : rest = [] ∨ ∃ t, rest = '.' :: t) :
    takeDigits1 (d ++ rest) = some (d, rest) := by
  obtain ⟨ht, hdr⟩ := takeWhile_digit_run d rest hd.2 hr
  unfold takeDigits1
  rw [if_neg (by rw [ht]; exact hd.1), ht, hdr]

theorem expectDot_some (r t : Str) (h : expectDot r = some t) : r = '.' :: t := by
  unfold expectDot at h
  split at h
  · next hh =>
    simp only [Option.some.injEq] at h
    subst h
    rcases r with _ | ⟨c, r'⟩
    · simp at hh
    · simp only [List.head?_cons, Option.some.injEq] at hh
      subst hh
      rfl
  · exact absurd h (by simp)

theorem expectDot_cons (t : Str) : expectDot ('.' :: t) = some t := by
  unfold expectDot
  simp

/-- Correctness of the deterministic matcher against the regex specification:
`parseVerBody` succeeds with `(m, n, p)` exactly on full matches of
`(\d+)\.(\d+)\.(\d+)$` whose groups evaluate to `m`, `n`, `p`. -/
theorem parseVerBody_some_iff (s : Str) (m n p : Nat) :
    parseVerBody s = some (m, n, p)
      ↔ ∃ d1 d2 d3 : Str, IsDigitStr d1 ∧ IsDigitStr d2 ∧ IsDigitStr d3 ∧
          s = d1 ++ ('.' :: (d2 ++ ('.' :: d3))) ∧
          m = digitsToNat d1 ∧ n = digitsToNat d2 ∧ p = digitsToNat d3 := by
  constructor
  · intro hp
    unfold parseVerBody at hp
    split at hp
    · exact absurd hp (by simp)
    · next d1 r1 h1 =>
      obtain ⟨hd1, hs1⟩ := takeDigits1_some s d1 r1 h1
      split at hp
      · exact absurd hp (by simp)
      · next r2 h2 =>
        have hr1 : r1 = '.' :: r2 := expectDot_some r1 r2 h2
        split at hp
        · exact absurd hp (by simp)
        · next d2 r3 h3 =>
          obtain ⟨hd2, hs2⟩ := takeDigits1_some r2 d2 r3 h3
          split at hp
          · exact absurd hp (by simp)
          · next r4 h4 =>
            have hr3 : r3 = '.' :: r4 := expectDot_some r3 r4 h4
            split at hp
            · exact absurd hp (by simp)
            · next d3 r5 h5 =>
              obtain ⟨hd3, hs3⟩ := takeDigits1_some r4 d3 r5 h5
              split at hp
              · next h6 =>
                simp only [Option.some.injEq, Prod.mk.injEq] at hp
                refine ⟨d1, d2, d3, hd1, hd2, hd3, ?_, hp.1.symm, hp.2.1.symm, hp.2.2.symm⟩
                subst h6
                rw [hs1, hr1, hs2, hr3, hs3]
                simp
              · exact absurd hp (by simp)
  · rintro ⟨d1, d2, d3, hd1, hd2, hd3, hs, hm, hn, hp3⟩
    subst hs
    unfold parseVerBody
    rw [takeDigits1_of_run d1 _ hd1 (Or.inr ⟨_, rfl⟩)]
    dsimp only
    rw [expectDot_cons]
    dsimp only
    rw [show d2 ++ ('.' :: d3) = d2 ++ ('.' :: (d3 ++ [])) from by simp]
    rw [takeDigits1_of_run d2 _ hd2 (Or.inr ⟨_, rfl⟩)]
    dsimp only
    rw [expectDot_cons]
    dsimp only
    rw [takeDigits1_of_run d3 [] hd3 (Or.inl rfl)]
    dsimp only
    rw [if_pos rfl, hm, hn, hp3]

/-- Correctness of the whole matcher: `parseVerCore` succeeds with
`(m, n, p)` exactly on full matches of `^v?(\d+)\.(\d+)\.(\d+)$` whose
groups evaluate to `m`, `n`, `p`. -/
theorem parseVerCore_eq_some_iff (cs : Str) (m n p : Nat) :
    parseVerCore cs = some (m, n, p) ↔ MatchesVersionRegex cs m n p := by
  unfold parseVerCore MatchesVersionRegex
  by_cases hv : cs.head? = some 'v'
  · rw [if_pos hv]
    rcases cs with _ | ⟨c0, t⟩
    · simp at hv
    · simp only [List.head?_cons, Option.some.injEq] at hv
      subst hv
      simp only [List.tail_cons]
      rw [parseVerBody_some_iff]
      constructor
      · rintro ⟨d1, d2, d3, hd1, hd2, hd3, hs, hm, hn, hp⟩
        exact ⟨d1, d2, d3, hd1, hd2, hd3, Or.inr (by rw [hs]), hm, hn, hp⟩
      · rintro ⟨d1, d2, d3, hd1, hd2, hd3, hs | hs, hm, hn, hp⟩
        · exfalso
          rcases d1 with _ | ⟨e, d1'⟩
          · exact hd1.1 rfl
          · have he : 'v' = e := by
              have := hs
              simp only [List.cons_append] at this
              exact (List.cons.injEq _ _ _ _ ▸ this).1
            exact digit_ne_v e (hd1.2 e (by simp)) he.symm
        · refine ⟨d1, d2, d3, hd1, hd2, hd3, ?_, hm, hn, hp⟩
          have := hs
          simp only [List.cons.injEq, true_and] at this
          exact this
  · rw [if_neg hv]
    rw [parseVerBody_some_iff]
    constructor
    · rintro ⟨d1, d2, d3, hd1, hd2, hd3, hs, hm, hn, hp⟩
      exact ⟨d1, d2, d3, hd1, hd2, hd3, Or.inl hs, hm, hn, hp⟩
    · rintro ⟨d1, d2, d3, hd1, hd2, hd3, hs | hs, hm, hn, hp⟩
      · exact ⟨d1, d2, d3, hd1, hd2, hd3, hs, hm, hn, hp⟩
      · exfalso
        apply hv
        rw [hs]
        rfl

theorem matchesVersionRegex_nil (m n p : Nat) : ¬ MatchesVersionRegex [] m n p := by
  rintro ⟨d1, d2, d3, hd1, _, _, hs | hs, _⟩
  · rcases d1 with _ | ⟨c, d1'⟩
    · exact hd1.1 rfl
    · simp at hs
  · simp at hs

/-- C7: `parse_version` returns the integer triple exactly when the trimmed
string matches `^v?(\d+)\.(\d+)\.(\d+)$` in full with the capture groups
evaluating to that triple (extra segments, missing components or non-digit
characters all fall outside `MatchesVersionRegex`), and fails with a
`VersionError` otherwise — including the empty string, which fails with the
same error kind (the `Err.versionError` constructor). -/
theorem C7_parse_version_iff_regex :
    (∀ (s : Str) (m n p : Nat),
        parse_version s = .ok (m, n, p) ↔ MatchesVersionRegex (pyStrip s) m n p)
    ∧ (∀ s : Str,
        (∃ msg, parse_version s = .error (.versionError msg))
          ↔ ¬ ∃ m n p, MatchesVersionRegex (pyStrip s) m n p) := by
  constructor
  · intro s m n p
    unfold parse_version
    by_cases hnil : s = []
    · rw [if_pos hnil]
      subst hnil
      constructor
      · intro h; exact absurd h (by simp)
      · intro h
        exact absurd h (matchesVersionRegex_nil m n p)
    · rw [if_neg hnil]
      cases hc : parseVerCore (pyStrip s) with
      | some t =>
        rcases t with ⟨a, b, c⟩
        dsimp only
        constructor
        · intro h
          simp only [Except.ok.injEq, Prod.mk.injEq] at h
          obtain ⟨ha, hb, hcc⟩ := h
          subst ha; subst hb; subst hcc
          exact (parseVerCore_eq_some_iff _ a b c).mp hc
        · intro h
          have hthis := (parseVerCore_eq_some_iff _ m n p).mpr h
          rw [hc] at hthis
          simp only [Option.some.injEq, Prod.mk.injEq] at hthis
          obtain ⟨ha, hb, hcc⟩ := hthis
          rw [ha, hb, hcc]
      | none =>
        dsimp only
        constructor
        · intro h; exact absurd h (by simp)
        · intro h
          rw [← parseVerCore_eq_some_iff] at h
          rw [hc] at h
          exact absurd h (by simp)
  · intro s
    by_cases hnil : s = []
    · subst hnil
      constructor
      · rintro ⟨msg, _⟩ ⟨m, n, p, h⟩
        exact matchesVersionRegex_nil m n p h
      · intro _
        exact ⟨_, rfl⟩
    · constructor
      · rintro ⟨msg, hmsg⟩ ⟨m, n, p, h⟩
        have hsome := (parseVerCore_eq_some_iff (pyStrip s) m n p).mpr h
        unfold parse_version at hmsg
        rw [if_neg hnil, hsome] at hmsg
        exact absurd hmsg (by simp)
      · intro h
        cases hc : parseVerCore (pyStrip s) with
        | some t =>
          rcases t with ⟨a, b, c⟩
          exact absurd ⟨a, b, c, (parseVerCore_eq_some_iff _ a b c).mp hc⟩ h
        | none =>
          refine ⟨("Invalid version format: ".toList) ++ s ++
            (". Expected format: v1.2.3 or 1.2.3".toList), ?_⟩
          unfold parse_version
          rw [if_neg hnil, hc]

theorem digitChar_isDigit (n : Nat) (h : n < 10) :
    (digitChar n).isDigit = true ∧ digitVal (digitChar n) = n := by
  interval_cases n <;> exact ⟨by decide, by decide⟩

theorem digitsToNat_append_singleton (l : Str) (c : Char) :
    digitsToNat (l ++ [c]) = 10 * digitsToNat l + digitVal c := by
  unfold digitsToNat
  rw [List.foldl_append]
  rfl

theorem natReprFuel_spec :
    ∀ (f n : Nat), n ≤ f →
      natReprFuel (f + 1) n ≠ []
      ∧ (∀ c ∈ natReprFuel (f + 1) n, c.isDigit = true)
      ∧ digitsToNat (natReprFuel (f + 1) n) = n := by
  intro f
  induction f with
  | zero =>
    intro n hn
    have h0 : n = 0 := by omega
    subst h0
    exact ⟨by decide, by decide, by decide⟩
  | succ f' ih =>
    intro n hn
    by_cases h10 : n < 10
    · obtain ⟨hd, hv⟩ := digitChar_isDigit n h10
      refine ⟨?_, ?_, ?_⟩
      · simp [natReprFuel, h10]
      · simp only [natReprFuel, if_pos h10]
        intro c hc
        simp only [List.mem_singleton] at hc
        subst hc
        exact hd
      · simp only [natReprFuel, if_pos h10]
        unfold digitsToNat
        simp [hv]
    · have hdiv : n / 10 ≤ f' := by
        have h1 : n / 10 < n := Nat.div_lt_self (by omega) (by omega)
        omega
      obtain ⟨hne, hdig, hval⟩ := ih (n / 10) hdiv
      have hmod : n % 10 < 10 := Nat.mod_lt _ (by omega)
      obtain ⟨hd, hv⟩ := digitChar_isDigit (n % 10) hmod
      have hunf : natReprFuel (f' + 1 + 1) n
          = natReprFuel (f' + 1) (n / 10) ++ [digitChar (n % 10)] := by
        simp [natReprFuel, h10]
      refine ⟨?_, ?_, ?_⟩
      · rw [hunf]; simp
      · rw [hunf]
        intro c hc
        rcases List.mem_append.mp hc with hc | hc
        · exact hdig c hc
        · simp only [List.mem_singleton] at hc
          subst hc
          exact hd
      · rw [hunf, digitsToNat_append_singleton, hval, hv]
        omega

theorem natRepr_spec (n : Nat) :
    natRepr n ≠ []
    ∧ (∀ c ∈ natRepr n, c.isDigit = true)
    ∧ digitsToNat (natRepr n) = n :=
  natReprFuel_spec n n (Nat.le_refl n)

theorem digit_not_pySpace (c : Char) (h : c.isDigit = true) : isPySpace c = false := by
  have hd : 48 ≤ c.toNat ∧ c.toNat ≤ 57 := by
    unfold Char.isDigit at h
    simp only [Bool.and_eq_true, decide_eq_true_eq] at h
    exact ⟨h.1, h.2⟩
  unfold isPySpace
  have w1 : (c == ' ') = false := by
    refine beq_eq_false_iff_ne.mpr ?_
    intro he; subst he; simp at hd
  have w2 : (c == '\t') = false := by
    refine beq_eq_false_iff_ne.mpr ?_
    intro he; subst he; simp at hd
  have w3 : (c == '\n') = false := by
    refine beq_eq_false_iff_ne.mpr ?_
    intro he; subst he; simp at hd
  have w4 : (c == '\r') = false := by
    refine beq_eq_false_iff_ne.mpr ?_
    intro he; subst he; simp at hd
  have w5 : (c == '\x0b') = false := by
    refine beq_eq_false_iff_ne.mpr ?_
    intro he; subst he; simp at hd
  have w6 : (c == '\x0c') = false := by
    refine beq_eq_false_iff_ne.mpr ?_
    intro he; subst he; simp at hd
  rw [w1, w2, w3, w4, w5, w6]
  rfl

theorem dropWhile_eq_self_of_none (p : Char → Bool) (s : Str)
    (h : ∀ c ∈ s, p c = false) : s.dropWhile p = s := by
  cases s with
  | nil => rfl
  | cons c cs =>
    rw [List.dropWhile_cons, h c (by simp)]
    simp

theorem pyStrip_eq_self (s : Str) (h : ∀ c ∈ s, isPySpace c = false) :
    pyStrip s = s := by
  unfold pyStrip
  rw [dropWhile_eq_self_of_none _ s h]
  rw [dropWhile_eq_self_of_none _ s.reverse (fun c hc => h c (List.mem_reverse.mp hc))]
  exact List.reverse_reverse s

/-- A rendered `f"{prefix}{a}.{b}.{c}"` string parses back to `(a, b, c)` and
starts with `v` exactly when the prefix is `"v"`. -/
theorem render_version_spec (pfx r : Str) (a b c : Nat)
    (hpfx : pfx = [] ∨ pfx = ['v'])
    (hr : r = pfx ++ (natRepr a ++ ('.' :: (natRepr b ++ ('.' :: natRepr c))))) :
    parse_version r = .ok (a, b, c) ∧ (r.head? = some 'v' ↔ pfx = ['v']) := by
  obtain ⟨hane, hadig, haval⟩ := natRepr_spec a
  obtain ⟨hbne, hbdig, hbval⟩ := natRepr_spec b
  obtain ⟨hcne, hcdig, hcval⟩ := natRepr_spec c
  have hnospace : ∀ ch ∈ r, isPySpace ch = false := by
    intro ch hch
    rw [hr] at hch
    simp only [List.mem_append, List.mem_cons] at hch
    rcases hch with hch | hch | hch | hch | hch | hch
    · rcases hpfx with hp | hp
      · rw [hp] at hch; simp at hch
      · rw [hp] at hch
        simp only [List.mem_singleton] at hch
        subst hch; decide
    · exact digit_not_pySpace ch (hadig ch hch)
    · subst hch; decide
    · exact digit_not_pySpace ch (hbdig ch hch)
    · subst hch; decide
    · exact digit_not_pySpace ch (hcdig ch hch)
  have hne : r ≠ [] := by
    rw [hr]
    rcases hpfx with hp | hp <;> rw [hp]
    · simp only [List.nil_append]
      intro hh
      rw [List.append_eq_nil] at hh
      exact hane hh.1
    · simp
  have hmatch : MatchesVersionRegex r a b c := by
    refine ⟨natRepr a, natRepr b, natRepr c, ⟨hane, hadig⟩, ⟨hbne, hbdig⟩, ⟨hcne, hcdig⟩,
      ?_, haval.symm, hbval.symm, hcval.symm⟩
    rcases hpfx with hp | hp <;> rw [hp] at hr
    · left; simpa using hr
    · right; simpa using hr
  have hps : pyStrip r = r := pyStrip_eq_self r hnospace
  constructor
  · unfold parse_version
    rw [if_neg hne, hps, (parseVerCore_eq_some_iff r a b c).mpr hmatch]
  · constructor
    · intro hh
      rcases hpfx with hp | hp
      · exfalso
        rw [hr, hp] at hh
        simp only [List.nil_append] at hh
        rcases hna : natRepr a with _ | ⟨h0, t0⟩
        · exact hane hna
        · rw [hna] at hh
          simp only [List.cons_append, List.head?_cons, Option.some.injEq] at hh
          exact digit_ne_v h0 (hadig h0 (by rw [hna]; simp)) hh
      · exact hp
    · intro hp
      rw [hr, hp]
      rfl

/-- C8: each increment parses its input once, raises the matching component
(resetting the lower ones), and re-renders with the `v` prefix present
exactly when the trimmed input starts with `v`: the result of
`increment_patch` parses to `(major, minor, patch+1)`, of `increment_minor`
to `(major, minor+1, 0)`, of `increment_major` to `(major+1, 0, 0)`; and the
spec's three examples hold verbatim. -/
theorem C8_increment_semantics :
    (∀ (s : Str) (ma mi pa : Nat), parse_version s = .ok (ma, mi, pa) →
      (∃ r, increment_patch s = .ok r ∧ parse_version r = .ok (ma, mi, pa + 1)
          ∧ (r.head? = some 'v' ↔ (pyStrip s).head? = some 'v'))
      ∧ (∃ r, increment_minor s = .ok r ∧ parse_version r = .ok (ma, mi + 1, 0)
          ∧ (r.head? = some 'v' ↔ (pyStrip s).head? = some 'v'))
      ∧ (∃ r, increment_major s = .ok r ∧ parse_version r = .ok (ma + 1, 0, 0)
          ∧ (r.head? = some 'v' ↔ (pyStrip s).head? = some 'v')))
    ∧ increment_patch ("v1.2.9".toList) = .ok ("v1.2.10".toList)
    ∧ increment_minor ("v1.9.5".toList) = .ok ("v1.10.0".toList)
    ∧ increment_major ("v9.5.2".toList) = .ok ("v10.0.0".toList) := by
  refine ⟨?_, by decide, by decide, by decide⟩
  intro s ma mi pa h
  have hpfx : prefixOf s = [] ∨ prefixOf s = ['v'] := by
    unfold prefixOf
    by_cases hv : (pyStrip s).head? = some 'v'
    · right; rw [if_pos hv]
    · left; rw [if_neg hv]
  have hlink : prefixOf s = ['v'] ↔ (pyStrip s).head? = some 'v' := by
    unfold prefixOf
    by_cases hv : (pyStrip s).head? = some 'v'
    · rw [if_pos hv]; simp [hv]
    · rw [if_neg hv]
      constructor
      · intro hh; simp at hh
      · intro hh; exact absurd hh hv
  refine ⟨?_, ?_, ?_⟩
  · unfold increment_patch
    rw [h]
    dsimp only
    refine ⟨_, rfl, ?_⟩
    have hs := render_version_spec (prefixOf s)
      (prefixOf s ++ natRepr ma ++ '.' :: natRepr mi ++ '.' :: natRepr (pa + 1))
      ma mi (pa + 1) hpfx (by simp)
    exact ⟨hs.1, hs.2.trans hlink⟩
  · unfold increment_minor
    rw [h]
    dsimp only
    refine ⟨_, rfl, ?_⟩
    have hs := render_version_spec (prefixOf s)
      (prefixOf s ++ natRepr ma ++ '.' :: natRepr (mi + 1) ++ '.' :: ['0'])
      ma (mi + 1) 0 hpfx
      (by simp [show natRepr 0 = ['0'] from rfl])
    exact ⟨hs.1, hs.2.trans hlink⟩
  · unfold increment_major
    rw [h]
    dsimp only
    refine ⟨_, rfl, ?_⟩
    have hs := render_version_spec (prefixOf s)
      (prefixOf s ++ natRepr (ma + 1) ++ '.' :: '0' :: '.' :: ['0'])
      (ma + 1) 0 0 hpfx
      (by simp [show natRepr 0 = ['0'] from rfl])
    exact ⟨hs.1, hs.2.trans hlink⟩

/-- Witness for C8 at the spec's three examples. -/
theorem C8_increment_semantics_witness :
    (∃ r, increment_patch ("v1.2.9".toList) = .ok r ∧ parse_version r = .ok (1, 2, 10)
        ∧ (r.head? = some 'v' ↔ (pyStrip ("v1.2.9".toList)).head? = some 'v'))
    ∧ (∃ r, increment_minor ("v1.9.5".toList) = .ok r ∧ parse_version r = .ok (1, 10, 0)
        ∧ (r.head? = some 'v' ↔ (pyStrip ("v1.9.5".toList)).head? = some 'v'))
    ∧ (∃ r, increment_major ("v9.5.2".toList) = .ok r ∧ parse_version r = .ok (10, 0, 0)
        ∧ (r.head? = some 'v' ↔ (pyStrip ("v9.5.2".toList)).head? = some 'v')) :=
  ⟨(C8_increment_semantics.1 _ 1 2 9 (by decide)).1,
   (C8_increment_semantics.1 _ 1 9 5 (by decide)).2.1,
   (C8_increment_semantics.1 _ 9 5 2 (by decide)).2.2⟩

theorem vLtB_total (a b : Nat × Nat × Nat) :
    (!(vLtB a b || vEqB a b)) = true ↔ vLtB b a = true := by
  rcases a with ⟨a1, a2, a3⟩
  rcases b with ⟨b1, b2, b3⟩
  simp only [vLtB, vEqB]
  split_ifs <;> simp_all <;> omega

theorem vLtB_trans (a b c : Nat × Nat × Nat)
    (h1 : vLtB a b = true) (h2 : vLtB b c = true) : vLtB a c = true := by
  rcases a with ⟨a1, a2, a3⟩
  rcases b with ⟨b1, b2, b3⟩
  rcases c with ⟨c1, c2, c3⟩
  simp only [vLtB] at h1 h2 ⊢
  split_ifs at h1 h2 ⊢ <;> simp_all <;> omega

theorem vLtB_le_trans (a b c : Nat × Nat × Nat)
    (h1 : vLtB a b = true ∨ vEqB a b = true) (h2 : vLtB b c = true) :
    vLtB a c = true := by
  rcases a with ⟨a1, a2, a3⟩
  rcases b with ⟨b1, b2, b3⟩
  rcases c with ⟨c1, c2, c3⟩
  simp only [vLtB, vEqB] at h1 h2 ⊢
  rcases h1 with h1 | h1
  · split_ifs at h1 h2 ⊢ <;> simp_all <;> omega
  · simp only [Bool.and_eq_true, decide_eq_true_eq] at h1
    obtain ⟨⟨he1, he2⟩, he3⟩ := h1
    subst he1; subst he2; subst he3
    exact h2

theorem vLtB_not_of_le (a b : Nat × Nat × Nat)
    (h : vLtB a b = true ∨ vEqB a b = true) : vLtB b a = false := by
  rcases a with ⟨a1, a2, a3⟩
  rcases b with ⟨b1, b2, b3⟩
  simp only [vLtB, vEqB] at h ⊢
  rcases h with h | h <;> split_ifs at h ⊢ <;> simp_all <;> omega

/-- Python `max` with a key and a strict-greater replacement test returns the
first element attaining the maximum: the fold result splits `init :: l` into
a strictly-smaller prefix, the result, and a not-greater suffix. -/
theorem pyMaxFold_first_max :
    ∀ (l : List ValidEntry) (init : ValidEntry),
      ∃ pre post, init :: l = pre ++ (l.foldl pyMaxStep init) :: post
        ∧ (∀ x ∈ pre, vLtB x.1.1 (l.foldl pyMaxStep init).1.1 = true)
        ∧ (∀ x ∈ post, vLtB (l.foldl pyMaxStep init).1.1 x.1.1 = false) := by
  intro l
  induction l with
  | nil =>
    intro init
    exact ⟨[], [], rfl, by simp, by simp⟩
  | cons x xs ih =>
    intro init
    rw [List.foldl_cons]
    by_cases hc : (!(vLtB x.1.1 init.1.1 || vEqB x.1.1 init.1.1)) = true
    · have hstep : pyMaxStep init x = x := by
        unfold pyMaxStep
        rw [if_pos hc]
      have hlt : vLtB init.1.1 x.1.1 = true := (vLtB_total _ _).mp hc
      rw [hstep]
      obtain ⟨pre', post', heq, hpre, hpost⟩ := ih x
      refine ⟨init :: pre', post', by rw [List.cons_append, ← heq], ?_, hpost⟩
      intro y hy
      rcases List.mem_cons.mp hy with hy | hy
      · subst hy
        cases pre' with
        | nil =>
          simp only [List.nil_append] at heq
          have hr : xs.foldl pyMaxStep x = x := by
            have := heq
            simp only [List.cons.injEq] at this
            exact this.1.symm
          rw [hr]
          exact hlt
        | cons p0 pre'' =>
          have hp0 : p0 = x := by
            have := heq
            simp only [List.cons_append, List.cons.injEq] at this
            exact this.1.symm
          have hxmem : x ∈ p0 :: pre'' := by rw [hp0]; simp
          exact vLtB_trans _ _ _ hlt (hpre x (by rw [← hp0] at hxmem ⊢; exact hxmem))
      · exact hpre y hy
    · have hstep : pyMaxStep init x = init := by
        unfold pyMaxStep
        rw [if_neg hc]
      have hle : vLtB x.1.1 init.1.1 = true ∨ vEqB x.1.1 init.1.1 = true := by
        rcases Bool.not_eq_true _ ▸ hc with hc'
        have : (vLtB x.1.1 init.1.1 || vEqB x.1.1 init.1.1) = true := by
          cases hb : (vLtB x.1.1 init.1.1 || vEqB x.1.1 init.1.1) with
          | true => rfl
          | false => exact absurd (by rw [hb]; rfl) hc
        exact Bool.or_eq_true_iff.mp this
      rw [hstep]
      obtain ⟨pre', post', heq, hpre, hpost⟩ := ih init
      cases pre' with
      | nil =>
        simp only [List.nil_append] at heq
        have hr : xs.foldl pyMaxStep init = init := by
          have := heq
          simp only [List.cons.injEq] at this
          exact this.1.symm
        have hpost' : post' = xs := by
          have := heq
          simp only [List.cons.injEq] at this
          exact this.2.symm
        refine ⟨[], x :: xs, ?_, by simp, ?_⟩
        · simp only [List.nil_append, List.cons.injEq]
          exact ⟨hr.symm, trivial⟩
        · intro y hy
          rcases List.mem_cons.mp hy with hy | hy
          · subst hy
            rw [hr]
            exact vLtB_not_of_le _ _ hle
          · rw [← hpost'] at hy
            exact hpost y hy
      | cons p0 pre'' =>
        have hp0 : p0 = init := by
          have := heq
          simp only [List.cons_append, List.cons.injEq] at this
          exact this.1.symm
        have hxs : xs = pre'' ++ (xs.foldl pyMaxStep init) :: post' := by
          have := heq
          simp only [List.cons_append, List.cons.injEq] at this
          exact this.2
        have hinitlt : vLtB init.1.1 (xs.foldl pyMaxStep init).1.1 = true := by
          have hinitmem : init ∈ p0 :: pre'' := by rw [hp0]; simp
          exact hpre init hinitmem
        refine ⟨init :: x :: pre'', post', ?_, ?_, hpost⟩
        · simp only [List.cons_append, List.cons.injEq]
          exact ⟨trivial, trivial, hxs⟩
        · intro y hy
          rcases List.mem_cons.mp hy with hy | hy
          · subst hy
            exact hinitlt
          · rcases List.mem_cons.mp hy with hy | hy
            · subst hy
              exact vLtB_le_trans _ _ _ hle hinitlt
            · exact hpre y (List.mem_cons_of_mem _ hy)

theorem filterMap_eq_append_cons {α β : Type} (f : α → Option β) :
    ∀ (l : List α) (pre : List β) (x : β) (post : List β),
      l.filterMap f = pre ++ x :: post →
      ∃ l1 a l2, l = l1 ++ a :: l2 ∧ f a = some x
        ∧ l1.filterMap f = pre ∧ l2.filterMap f = post := by
  intro l
  induction l with
  | nil =>
    intro pre x post h
    simp only [List.filterMap_nil] at h
    exact absurd h.symm (List.append_ne_nil_of_right_ne_nil _ (by simp))
  | cons a l' ih =>
    intro pre x post h
    rw [List.filterMap_cons] at h
    cases hfa : f a with
    | none =>
      rw [hfa] at h
      obtain ⟨l1, b, l2, hl, hfb, h1, h2⟩ := ih pre x post h
      exact ⟨a :: l1, b, l2, by rw [hl, List.cons_append], hfb,
        by rw [List.filterMap_cons, hfa, h1], h2⟩
    | some b =>
      rw [hfa] at h
      cases pre with
      | nil =>
        simp only [List.nil_append, List.cons.injEq] at h
        exact ⟨[], a, l', by simp, by rw [hfa, h.1], by simp, h.2⟩
      | cons p0 pre' =>
        simp only [List.cons_append, List.cons.injEq] at h
        obtain ⟨l1, c, l2, hl, hfc, h1, h2⟩ := ih pre' x post h.2
        exact ⟨a :: l1, c, l2, by rw [hl, List.cons_append], hfc,
          by rw [List.filterMap_cons, hfa, h1, h.1], h2⟩

/-- C3: `find_highest_version` fails exactly when no element parses (in
particular on the empty list), and otherwise returns an original element of
the input that parses to the maximum `(major, minor, patch)` triple, with
earlier elements parsing strictly below it (first-occurrence tie-break) and
later elements parsing no higher. -/
theorem C3_find_highest_first_max (versions : List Str) :
    ((∃ e, find_highest_version versions = .error e)
        ↔ ∀ v ∈ versions, ∀ t : Nat × Nat × Nat, parse_version v ≠ .ok t)
    ∧ (∀ s, find_highest_version versions = .ok s →
        ∃ (t : Nat × Nat × Nat) (V1 V2 : List Str),
          versions = V1 ++ s :: V2 ∧ parse_version s = .ok t ∧
          (∀ v ∈ V1, ∀ t' : Nat × Nat × Nat, parse_version v = .ok t' → vLtB t' t = true) ∧
          (∀ v ∈ V2, ∀ t' : Nat × Nat × Nat, parse_version v = .ok t' → vLtB t t' = false)) := by
  constructor
  · constructor
    · rintro ⟨e, he⟩ v hv t hok
      unfold find_highest_version at he
      have hne : versions.isEmpty = false := by
        cases versions with
        | nil => simp at hv
        | cons _ _ => rfl
      rw [if_neg (by rw [hne]; simp)] at he
      have hentry : ((t, prefixOf v), v) ∈ versions.filterMap parseEntry :=
        List.mem_filterMap.mpr ⟨v, hv, by unfold parseEntry; rw [hok]⟩
      cases hval : versions.filterMap parseEntry with
      | nil => rw [hval] at hentry; simp at hentry
      | cons h0 t0 => rw [hval] at he; simp at he
    · intro hall
      by_cases hemp : versions.isEmpty
      · exact ⟨_, by unfold find_highest_version; rw [if_pos hemp]⟩
      · have hnil : versions.filterMap parseEntry = [] := by
          rw [List.filterMap_eq_nil_iff]
          intro v hv
          unfold parseEntry
          cases hok : parse_version v with
          | ok tt => exact absurd hok (hall v hv tt)
          | error e => rfl
        exact ⟨_, by unfold find_highest_version; rw [if_neg hemp, hnil]⟩
  · intro s hs
    unfold find_highest_version at hs
    by_cases hemp : versions.isEmpty
    · rw [if_pos hemp] at hs
      exact absurd hs (by simp)
    · rw [if_neg hemp] at hs
      cases hval : versions.filterMap parseEntry with
      | nil => rw [hval] at hs; exact absurd hs (by simp)
      | cons h0 t0 =>
        rw [hval] at hs
        simp only [Except.ok.injEq] at hs
        obtain ⟨pre, post, heq, hpre, hpost⟩ := pyMaxFold_first_max t0 h0
        have hdecomp : versions.filterMap parseEntry
            = pre ++ (t0.foldl pyMaxStep h0) :: post := by
          rw [hval]; exact heq
        obtain ⟨V1, a, V2, hver, hfa, hV1, hV2⟩ :=
          filterMap_eq_append_cons parseEntry versions pre _ post hdecomp
        unfold parseEntry at hfa
        cases hok : parse_version a with
        | error e => rw [hok] at hfa; exact absurd hfa (by simp)
        | ok tt =>
          rw [hok] at hfa
          simp only [Option.some.injEq] at hfa
          have hs2 : a = s := by rw [← hs, ← hfa]
          have hkey : (t0.foldl pyMaxStep h0).1.1 = tt := by rw [← hfa]
          refine ⟨tt, V1, V2, by rw [← hs2]; exact hver, by rw [← hs2]; exact hok, ?_, ?_⟩
          · intro v hv t' hok'
            have hmem : ((t', prefixOf v), v) ∈ V1.filterMap parseEntry :=
              List.mem_filterMap.mpr ⟨v, hv, by unfold parseEntry; rw [hok']⟩
            rw [hV1] at hmem
            have hlt := hpre _ hmem
            rw [hkey] at hlt
            exact hlt
          · intro v hv t' hok'
            have hmem : ((t', prefixOf v), v) ∈ V2.filterMap parseEntry :=
              List.mem_filterMap.mpr ⟨v, hv, by unfold parseEntry; rw [hok']⟩
            rw [hV2] at hmem
            have hlt := hpost _ hmem
            rw [hkey] at hlt
            exact hlt

/-- Witness for C3 at the spec's example list: `v1.2.4` is returned and sits
between the strictly-smaller earlier entries and the no-higher later ones. -/
theorem C3_find_highest_first_max_witness :
    ∃ (t : Nat × Nat × Nat) (V1 V2 : List Str),
      ["v1.2.3".toList, "invalid".toList, "v1.2.4".toList, "v1.1.0".toList]
        = V1 ++ ("v1.2.4".toList) :: V2
      ∧ parse_version ("v1.2.4".toList) = .ok t
      ∧ (∀ v ∈ V1, ∀ t' : Nat × Nat × Nat, parse_version v = .ok t' → vLtB t' t = true)
      ∧ (∀ v ∈ V2, ∀ t' : Nat × Nat × Nat, parse_version v = .ok t' → vLtB t t' = false) :=
  (C3_find_highest_first_max
      ["v1.2.3".toList, "invalid".toList, "v1.2.4".toList, "v1.1.0".toList]).2
    ("v1.2.4".toList) (by decide)

theorem isPrefixOf_append_self (l t : Str) : l.isPrefixOf (l ++ t) = true := by
  induction l with
  | nil => simp [List.isPrefixOf]
  | cons a as ih => simp [List.isPrefixOf, ih]

theorem isPrefixOf_nil_false (o : Str) (h : o ≠ []) : o.isPrefixOf [] = false := by
  cases o with
  | nil => exact absurd rfl h
  | cons a as => simp [List.isPrefixOf]

/-- The scanner leaves a string without occurrences untouched. -/
theorem replGo_no_occ (old new : Str) :
    ∀ (s : Str) (fuel : Nat), s.length ≤ fuel →
      (∀ i, i < s.length → old.isPrefixOf (s.drop i) = false) →
      replGo old new fuel s = s := by
  intro s
  induction s with
  | nil => intro fuel _ _; cases fuel <;> rfl
  | cons c cs ih =>
    intro fuel hfuel hocc
    cases fuel with
    | zero => simp at hfuel
    | succ f =>
      have h0 : old.isPrefixOf (c :: cs) = false := by
        have := hocc 0 (by simp)
        simpa using this
      have hlen : cs.length ≤ f := by
        simp only [List.length_cons] at hfuel
        omega
      have hrest : ∀ i, i < cs.length → old.isPrefixOf (cs.drop i) = false := by
        intro i hi
        have := hocc (i + 1) (by simp; omega)
        simpa [List.drop_succ_cons] using this
      unfold replGo
      rw [h0]
      simp only [Bool.false_eq_true, if_false]
      rw [ih f hlen hrest]

/-- When the pattern occurs exactly once (at position `pre.length`), the
scanner replaces that occurrence and leaves every other byte unchanged. -/
theorem replGo_single (old new : Str) (hne : old ≠ []) :
    ∀ (pre s post : Str) (fuel : Nat),
      s = pre ++ old ++ post →
      (∀ i, i < s.length → i ≠ pre.length → old.isPrefixOf (s.drop i) = false) →
      s.length ≤ fuel →
      replGo old new fuel s = pre ++ new ++ post := by
  intro pre
  induction pre with
  | nil =>
    intro s post fuel hs hocc hfuel
    subst hs
    simp only [List.nil_append] at hocc hfuel ⊢
    rcases hold : old with _ | ⟨o, old'⟩
    · exact absurd hold hne
    · subst hold
      cases fuel with
      | zero => simp at hfuel
      | succ f =>
        show replGo (o :: old') new (f + 1) (o :: (old' ++ post)) = new ++ post
        have hpref : (o :: old').isPrefixOf (o :: (old' ++ post)) = true := by
          have := isPrefixOf_append_self (o :: old') post
          simp only [List.cons_append] at this
          exact this
        unfold replGo
        rw [hpref]
        simp only [if_true]
        have hdrop : List.drop (o :: old').length (o :: (old' ++ post)) = post := by
          show List.drop (old'.length + 1) (o :: (old' ++ post)) = post
          simp [List.drop_succ_cons]
        rw [hdrop]
        have hposts : replGo (o :: old') new f post = post := by
          apply replGo_no_occ
          · simp only [List.length_cons, List.cons_append, List.length_append] at hfuel
            omega
          · intro j hj
            have hb : (o :: old').length + j < ((o :: old') ++ post).length := by
              simp only [List.length_append, List.length_cons] at *
              omega
            have := hocc ((o :: old').length + j) (by simpa using hb) (by simp)
            rw [List.drop_append j] at this
            exact this
        rw [hposts]
  | cons c pre' ih =>
    intro s post fuel hs hocc hfuel
    subst hs
    cases fuel with
    | zero => simp at hfuel
    | succ f =>
      have h0 : old.isPrefixOf ((((c :: pre') ++ old) ++ post).drop 0) = false := by
        apply hocc 0
        · simp only [List.cons_append, List.length_cons, List.length_append]
          omega
        · simp
      show replGo old new (f + 1) (c :: ((pre' ++ old) ++ post))
          = c :: ((pre' ++ new) ++ post)
      have h0' : old.isPrefixOf (c :: ((pre' ++ old) ++ post)) = false := by
        simpa using h0
      unfold replGo
      rw [h0']
      simp only [Bool.false_eq_true, if_false]
      have hrec := ih ((pre' ++ old) ++ post) post f rfl ?hocc ?hfuel
      case hocc =>
        intro i hi hni
        have := hocc (i + 1)
          (by simp only [List.cons_append, List.length_cons]; simpa using Nat.succ_lt_succ hi)
          (by simp only [List.length_cons]; omega)
        simpa [List.drop_succ_cons] using this
      case hfuel =>
        simp only [List.cons_append, List.length_cons] at hfuel
        omega
      rw [hrec]

/-- `str.replace` with a unique occurrence: the occurrence is replaced and
every other byte is unchanged. -/
theorem pyReplace_single (s old new pre post : Str) (hne : old ≠ [])
    (hs : s = (pre ++ old) ++ post)
    (hocc : ∀ i, i < s.length → i ≠ pre.length → old.isPrefixOf (s.drop i) = false) :
    pyReplace s old new = (pre ++ new) ++ post := by
  unfold pyReplace
  rw [if_neg (by cases old with | nil => exact absurd rfl hne | cons _ _ => simp)]
  exact replGo_single old new hne pre s post s.length (by rw [hs]) hocc (Nat.le_refl _)

/-- A file in which the full-match text occurs twice. -/
def fsDup : FS :=
  ⟨[("sample/a.py".toList,
     "version = \"v1.2.3\"\nversion = \"v1.2.3\"\n".toList)], [], []⟩

/-- C1 counterexample: on a file holding two copies of the matched line, the
regex matches the first one (group 0 is the first `version = "v1.2.3"`), but
`update_file_version` uses Python `str.replace`, which rewrites **every**
occurrence of that text: the second line changes too, and the result differs
from the claim's prediction (full match replaced, every other byte
unchanged), while still returning `true`. -/
theorem C1_update_rewrites_every_occurrence :
    update_file_version cfgsThree fsDup ("sample/a.py".toList) ("v2.0.0".toList)
      = .ok (true,
          ⟨[("sample/a.py".toList,
             "version = \"v2.0.0\"\nversion = \"v2.0.0\"\n".toList)], [], []⟩)
    ∧ ("version = \"v2.0.0\"\nversion = \"v2.0.0\"\n".toList : Str)
        ≠ ("version = \"v2.0.0\"\nversion = \"v1.2.3\"\n".toList) :=
  ⟨by decide, by decide⟩

/-- C1 (amended): with a matching rule, `update_file_version` re-reads the
content; with no regex match it returns `false` and leaves the file system
untouched; with a match it replaces **every occurrence** of the full-match
text `group(0)` by the template rendered with the new version and returns
`true`; and when the full-match text occurs exactly once in the content, the
rewrite replaces exactly that occurrence and every other byte of the file is
unchanged. -/
theorem C1_update_file_version_semantics (cfg : FileConfig) (fs : FS)
    (path nv content : Str)
    (hcfg : file_matches_pattern path cfg.file_pattern = true)
    (hread : fsRead fs path = .ok content) :
    (cfg.regex_pattern.search content = none →
        update_file_version [cfg] fs path nv = .ok (false, fs))
    ∧ (∀ m, cfg.regex_pattern.search content = some m →
        path ∉ fs.writeFail →
        update_file_version [cfg] fs path nv
          = .ok (true, { fs with files := setAssoc fs.files path (pyReplace content m.g0 (formatTemplate cfg.template nv)) }))
    ∧ (∀ (m : MatchRes) (pre post : Str), m.g0 ≠ [] →
        content = (pre ++ m.g0) ++ post →
        (∀ i, i < content.length → i ≠ pre.length →
            (m.g0).isPrefixOf (content.drop i) = false) →
        pyReplace content m.g0 (formatTemplate cfg.template nv)
          = (pre ++ formatTemplate cfg.template nv) ++ post) := by
  have hfind : findMatchingConfig [cfg] path = some cfg := by
    unfold findMatchingConfig
    simp [List.find?, hcfg]
  refine ⟨?_, ?_, ?_⟩
  · intro hnone
    unfold update_file_version
    rw [hfind]
    dsimp only
    rw [hread]
    dsimp only
    rw [hnone]
  · intro m hm hw
    unfold update_file_version
    rw [hfind]
    dsimp only
    rw [hread]
    dsimp only
    rw [hm]
    dsimp only
    have hwr : fsWrite fs path (pyReplace content m.g0 (formatTemplate cfg.template nv))
        = .ok { fs with files := setAssoc fs.files path (pyReplace content m.g0 (formatTemplate cfg.template nv)) } := by
      simp [fsWrite, hw]
    rw [hwr]
  · intro m pre post hne hdecomp hocc
    exact pyReplace_single content m.g0 (formatTemplate cfg.template nv) pre post hne
      hdecomp hocc

/-- Witness for C1 at concrete files: a no-match file is untouched with
`false`; a matching single-occurrence file is rewritten with `true`, and the
rewritten content is byte-identical outside the replaced full match. -/
theorem C1_update_file_version_semantics_witness :
    update_file_version
        [⟨"sample/b.py".toList, regexVQuoted, "version = \"{version}\"".toList⟩]
        fsMixed ("sample/b.py".toList) ("v2.0.0".toList)
      = .ok (false, fsMixed)
    ∧ update_file_version
        [⟨"sample/a.py".toList, regexVQuoted, "version = \"{version}\"".toList⟩]
        fsThree ("sample/a.py".toList) ("v2.0.0".toList)
      = .ok (true,
          ⟨[("sample/a.py".toList, "version = \"v2.0.0\"\n".toList),
            ("sample/b.py".toList, "version = \"v1.2.2\"\n".toList),
            ("sample/c.py".toList, "version = \"v1.2.3\"\n".toList)], [], []⟩)
    ∧ pyReplace ("version = \"v1.2.3\"\n".toList)
        ("version = \"v1.2.3\"".toList)
        (formatTemplate ("version = \"{version}\"".toList) ("v2.0.0".toList))
      = (([] : Str) ++ formatTemplate ("version = \"{version}\"".toList) ("v2.0.0".toList))
          ++ ("\n".toList) := by
  refine ⟨?_, ?_, ?_⟩
  · exact (C1_update_file_version_semantics
      ⟨"sample/b.py".toList, regexVQuoted, "version = \"{version}\"".toList⟩
      fsMixed ("sample/b.py".toList) ("v2.0.0".toList) ("no marker here\n".toList)
      (by decide) (by decide)).1 (by decide)
  · exact ((C1_update_file_version_semantics
      ⟨"sample/a.py".toList, regexVQuoted, "version = \"{version}\"".toList⟩
      fsThree ("sample/a.py".toList) ("v2.0.0".toList) ("version = \"v1.2.3\"\n".toList)
      (by decide) (by decide)).2.1
      ⟨"version = \"v1.2.3\"".toList, "v1.2.3".toList⟩ (by decide) (by decide)).trans
      (by decide)
  · exact (C1_update_file_version_semantics
      ⟨"sample/a.py".toList, regexVQuoted, "version = \"{version}\"".toList⟩
      fsThree ("sample/a.py".toList) ("v2.0.0".toList) ("version = \"v1.2.3\"\n".toList)
      (by decide) (by decide)).2.2
      ⟨"version = \"v1.2.3\"".toList, "v1.2.3".toList⟩ [] ("\n".toList)
      (by decide) (by decide) (by decide)
